import Mathlib

/-!
Verification development for a small information-retrieval toolkit:
a bag-of-words document/collection data model with inverted-index
bookkeeping (`data_structures.py`), ranking models BM25, Jelinek-Mercer
language model and a vector-space cosine model (`ir_models.py`), a
weight-5 feature selector and pseudo-relevance re-ranker, and query
reweighting / score normalisation utilities (`ir_tools.py`).

Python dictionaries are modelled as insertion-ordered association lists
over `String` keys.  Floating point arithmetic is modelled exactly over
a linear ordered field (`ℚ` where the source only uses field
operations; `ℝ`, with `Real.logb 10`, `Real.log` and `Real.sqrt`, where
the source calls `math.log10`, `math.log` or `math.sqrt`); the
transcendental functions are passed as parameters so the definitions
stay computable and are instantiated with the real functions in the
theorems.
-/

abbrev DocId := String
abbrev TermKey := String

/-- `d.get(k)` on an insertion-ordered association list. -/
def dget {V : Type} : List (String × V) → String → Option V
  | [], _ => none
  | p :: t, k => if p.1 = k then some p.2 else dget t k

/-- `d.get(k, dflt)`. -/
def dgetD {V : Type} (l : List (String × V)) (k : String) (dflt : V) : V :=
  (dget l k).getD dflt

/-- `d[k] = f(d[k])` for a key already present: rewrite the value stored
at `k`, keeping the dictionary's insertion order. -/
def dictUpdate {V : Type} (l : List (String × V)) (k : String) (f : V → V) :
    List (String × V) :=
  l.map (fun p => if p.1 = k then (p.1, f p.2) else p)

/-- `d[k] = v`: overwrite in place when the key exists, append otherwise
(Python dicts keep the original position of an overwritten key). -/
def dictSet {V : Type} (l : List (String × V)) (k : String) (v : V) :
    List (String × V) :=
  if (dget l k).isSome then dictUpdate l k (fun _ => v) else l ++ [(k, v)]

/-- `d[k] = d[k] + 1 if k in d else 1`. -/
def dictIncr (l : List (String × Nat)) (k : String) : List (String × Nat) :=
  if (dget l k).isSome then dictUpdate l k (· + 1) else l ++ [(k, 1)]

/-- `bow_document` from `data_structures.py`: a document id, a
term → occurrence-count dictionary and a separately maintained length. -/
structure bow_document where
  doc_id : DocId
  terms : List (TermKey × Nat)
  doc_len : Nat
deriving Repr, DecidableEq

/-- `bow_document.__init__`. -/
def bow_document.mk0 (item_id : DocId) : bow_document :=
  { doc_id := item_id, terms := [], doc_len := 0 }

/-- `bow_document.add_term`: extend `doc_len`, then increment the term's
frequency (initialising it to 1 if absent). -/
def add_term (d : bow_document) (term : TermKey) : bow_document :=
  { d with doc_len := d.doc_len + 1, terms := dictIncr d.terms term }

/-- `bow_document_collection` from `data_structures.py`. -/
structure bow_document_collection where
  docs : List (DocId × bow_document)
  term_doc_count : List (TermKey × Nat)
  term_frequency : List (TermKey × Nat)
deriving Repr, DecidableEq

/-- `bow_document_collection.__init__`. -/
def emptyCollection : bow_document_collection :=
  { docs := [], term_doc_count := [], term_frequency := [] }

/-- `bow_document_collection.add_doc`: register the document under its
id, then for each distinct term key of the document bump both
`term_doc_count` and `term_frequency` by exactly one. -/
def add_doc (c : bow_document_collection) (doc : bow_document) :
    bow_document_collection :=
  let docs' := dictSet c.docs doc.doc_id doc
  let counts := doc.terms.foldl
    (fun (acc : List (TermKey × Nat) × List (TermKey × Nat)) p =>
      (dictIncr acc.1 p.1, dictIncr acc.2 p.1))
    (c.term_doc_count, c.term_frequency)
  { docs := docs', term_doc_count := counts.1, term_frequency := counts.2 }

/-- One step of the stable descending insertion sort used to model
Python's `sorted(..., key=lambda item: item[1], reverse=True)`: a new
element goes after every element whose score is at least as large. -/
def insertDesc {β : Type} [LinearOrder β] (x : String × β) :
    List (String × β) → List (String × β)
  | [] => [x]
  | y :: ys => if x.2 ≤ y.2 then y :: insertDesc x ys else x :: y :: ys

/-- Stable sort by score, descending (model of
`sorted(d.items(), key=lambda item: item[1], reverse=True)`). -/
def sortDesc {β : Type} [LinearOrder β] (l : List (String × β)) :
    List (String × β) :=
  l.foldl (fun acc x => insertDesc x acc) []

/-- `ir_tools.score_normalisation`: min-max scaling; every score maps to
0 when all scores coincide; Python's `min`/`max` raise on an empty
dictionary. -/
def score_normalisation {α : Type} [LinearOrderedField α]
    (scores : List (DocId × α)) : Except String (List (DocId × α)) :=
  match scores with
  | [] => Except.error "min() arg is an empty sequence"
  | s :: rest =>
    let min_score := (rest.map (fun p => p.2)).foldl min s.2
    let max_score := (rest.map (fun p => p.2)).foldl max s.2
    if max_score - min_score = 0 then
      Except.ok (scores.map (fun p => (p.1, 0)))
    else
      Except.ok (scores.map (fun p => (p.1, (p.2 - min_score) / (max_score - min_score))))

/-- `sum(doc.doc_len for doc in collection.docs.values())`. -/
def total_corpus_length (c : bow_document_collection) : ℕ :=
  (c.docs.map (fun p => p.2.doc_len)).sum

/-- `mean_doc_len = total_corpus_length / N` inside `BM25`. -/
def mean_doc_len (α : Type) [LinearOrderedField α] (c : bow_document_collection) : α :=
  (total_corpus_length c : α) / (c.docs.length : α)

/-- The BM25 inverse-document-frequency component for one query term,
with `R = 0` and `r_i = 0` substituted as in the source; `lg` models
`math.log10` on its domain (positive arguments).  `BM25` itself checks
the sign of the argument before consulting `lg`, since `math.log10`
raises `ValueError: math domain error` on a nonpositive argument. -/
def bm25_idf {α : Type} [LinearOrderedField α] (lg : α → α)
    (c : bow_document_collection) (t : TermKey) : α :=
  let N : α := (c.docs.length : α)
  let n_i : α := ((dgetD c.term_doc_count t 0 : ℕ) : α)
  lg ((((0:α) + 0.5) / ((0:α) - 0 + 0.5)) / ((n_i - 0 + 0.5) / (N - n_i - 0 + 0 + 0.5)))

/-- The BM25 length normaliser `K = k_1 * ((1 - b) + b * doc_len / mean_doc_len)`
as a value.  The division by `mean_doc_len` raises `ZeroDivisionError`
in the source when the mean is 0; `BM25` checks exactly that before
consulting this value. -/
def bm25_K {α : Type} [LinearOrderedField α] (c : bow_document_collection)
    (doc : bow_document) : α :=
  1.2 * ((1 - 0.75) + 0.75 * (doc.doc_len : α) / mean_doc_len α c)

/-- One query term's additive contribution to one document's BM25 score:
`idf_component * saturation_component * query_component`. -/
def bm25_contrib {α : Type} [LinearOrderedField α] (lg : α → α)
    (c : bow_document_collection) (t : TermKey) (qf : α) (doc : bow_document) : α :=
  let f_td : α := ((dgetD doc.terms t 0 : ℕ) : α)
  bm25_idf lg c t * (((1.2 + 1) * f_td) / (bm25_K c doc + f_td)) *
    (((500 + 1) * qf) / (500 + qf))

/-- The inner (per-document) step of BM25's scoring loop, in an error
monad: each division of the source is checked for a zero divisor in the
order the source performs them — `b * doc_len / mean_doc_len` inside
`K` (the source's `ZeroDivisionError` when every document has length
0), the saturation denominator `K + f_td`, and the query-component
denominator `k_2 + f_tq`. -/
def bm25_inner_step {α : Type} [LinearOrderedField α] (lg : α → α)
    (c : bow_document_collection) (tq : TermKey × α)
    (acc : List (DocId × α)) (p : DocId × bow_document) :
    Except String (List (DocId × α)) :=
  if mean_doc_len α c = 0 then
    Except.error "division by zero"
  else if bm25_K c p.2 + ((dgetD p.2.terms tq.1 0 : ℕ) : α) = 0 then
    Except.error "division by zero"
  else if (500 : α) + tq.2 = 0 then
    Except.error "division by zero"
  else
    Except.ok (dictUpdate acc p.1 (fun s => s + bm25_contrib lg c tq.1 tq.2 p.2))

/-- The outer (per-query-term) step of BM25's scoring loop: first the
term's idf is computed, and `math.log10` raises `ValueError` when its
argument is nonpositive; then the inner loop runs over the documents. -/
def bm25_term_step {α : Type} [LinearOrderedField α] (lg : α → α)
    (c : bow_document_collection) (ds : List (DocId × α)) (tq : TermKey × α) :
    Except String (List (DocId × α)) :=
  let n_i : α := ((dgetD c.term_doc_count tq.1 0 : ℕ) : α)
  if (((0:α) + 0.5) / ((0:α) - 0 + 0.5)) /
      ((n_i - 0 + 0.5) / ((c.docs.length : α) - n_i - 0 + 0 + 0.5)) ≤ 0 then
    Except.error "math domain error"
  else
    c.docs.foldlM (bm25_inner_step lg c tq) ds

/-- `ir_models.BM25`, with the collection state threaded explicitly so
that (non-)mutation of the collection is visible in the result.  The
scoring loops run in an error monad so that the source's unguarded
divisions and `math.log10` call surface as `Except.error` exactly where
the source raises. -/
def BM25_full {α : Type} [LinearOrderedField α] (lg : α → α)
    (c : bow_document_collection) (query : List (TermKey × α)) :
    bow_document_collection × Except String (List (DocId × α)) :=
  if c.docs.isEmpty then
    (c, Except.error "collection: object contains no documents (bow_document objects).")
  else
    match query.foldlM (bm25_term_step lg c) (c.docs.map (fun p => (p.1, 0))) with
    | Except.error e => (c, Except.error e)
    | Except.ok final =>
      match score_normalisation final with
      | Except.error e => (c, Except.error e)
      | Except.ok ns => (c, Except.ok (sortDesc ns))

/-- The score mapping returned by `ir_models.BM25`. -/
def BM25 {α : Type} [LinearOrderedField α] (lg : α → α)
    (c : bow_document_collection) (query : List (TermKey × α)) :
    Except String (List (DocId × α)) :=
  (BM25_full lg c query).2

/-- The Jelinek-Mercer smoothed probability
`(1 - 0.4) * p_doc + 0.4 * p_coll` of one query term for one document
(each fraction is 0 when its denominator is 0).  The source only uses
exact field arithmetic here, so `ℚ` models it faithfully. -/
def jm_p (c : bow_document_collection) (doc : bow_document) (t : TermKey) : ℚ :=
  let p_doc : ℚ :=
    if 0 < doc.doc_len then ((dgetD doc.terms t 0 : ℕ) : ℚ) / (doc.doc_len : ℚ) else 0
  let p_coll : ℚ :=
    if 0 < total_corpus_length c then
      ((dgetD c.term_doc_count t 0 : ℕ) : ℚ) / (total_corpus_length c : ℚ)
    else 0
  (1 - 0.4) * p_doc + 0.4 * p_coll

/-- `ir_models.JM_LM`: a running product started at the multiplicative
identity 1, multiplied by each positive smoothed probability, with an
`updated` flag per document; documents never updated are reset to 0
before sorting.  Collection state threaded as in `BM25_full`. -/
def JM_LM_full (c : bow_document_collection) (query : List (TermKey × ℚ)) :
    bow_document_collection × Except String (List (DocId × ℚ)) :=
  if c.docs.isEmpty then
    (c, Except.error "bow_document_collection: object contains no documents (bow_document objects).")
  else
    let init_scores : List (DocId × ℚ) := c.docs.map (fun p => (p.1, 1))
    let init_updated : List (DocId × Bool) := c.docs.map (fun p => (p.1, false))
    let st := query.foldl (fun st tq =>
        c.docs.foldl (fun st2 p =>
            if 0 < jm_p c p.2 tq.1 then
              (dictUpdate st2.1 p.1 (fun s => s * jm_p c p.2 tq.1),
               dictUpdate st2.2 p.1 (fun _ => true))
            else st2)
          st)
      (init_scores, init_updated)
    let adjusted := st.1.map (fun p => (p.1, if dgetD st.2 p.1 false then p.2 else 0))
    (c, Except.ok (sortDesc adjusted))

/-- The score mapping returned by `ir_models.JM_LM`. -/
def JM_LM (c : bow_document_collection) (query : List (TermKey × ℚ)) :
    Except String (List (DocId × ℚ)) :=
  (JM_LM_full c query).2

/-- `ir_models.cosine_similarity`; `sqrt` models `math.sqrt`.  The
Python guard `(norm1 and norm2) != 0` is true exactly when both norms
are nonzero. -/
def cosine_similarity {α : Type} [LinearOrderedField α] (sqrt : α → α)
    (vector1 vector2 : List α) : α :=
  let dot_product := ((vector1.zip vector2).map (fun p => p.1 * p.2)).sum
  let norm1 := sqrt ((vector1.map (fun x => x ^ 2)).sum)
  let norm2 := sqrt ((vector2.map (fun x => x ^ 2)).sum)
  if norm1 ≠ 0 ∧ norm2 ≠ 0 then dot_product / (norm1 * norm2) else 0

/-- The tf-idf inverse-document-frequency weight
`math.log(N / doc_freq, 10)` used by `vector_space_model`; the source
reads the frequency from `collection.term_frequency`. -/
def vsm_idf {α : Type} [LinearOrderedField α] (lg : α → α)
    (c : bow_document_collection) (t : TermKey) : α :=
  lg ((c.docs.length : α) / ((dgetD c.term_frequency t 0 : ℕ) : α))

/-- `ir_models.vector_space_model`.  In the source,
`document_vectors[doc_ID] = vector` stores a reference to the single
shared list `vector`, whose every index is overwritten on each loop
iteration; after the document loop each stored entry therefore reads
the final state of that list — the weight vector of the last document
iterated — which is what the fold below computes. -/
def vector_space_model_full {α : Type} [LinearOrderedField α] (lg sqrt : α → α)
    (c : bow_document_collection) (query : List (TermKey × α)) :
    bow_document_collection × Except String (List (DocId × α)) :=
  if c.docs.isEmpty then
    (c, Except.error "collection: object contains no documents (bow_document objects).")
  else
    let all_terms := c.term_frequency.map (fun p => p.1)
    let query_vector := all_terms.map (fun t => dgetD query t 0)
    let vector_final := c.docs.foldl
      (fun _ p => all_terms.map (fun t => ((dgetD p.2.terms t 0 : ℕ) : α) * vsm_idf lg c t))
      (all_terms.map (fun _ => (0:α)))
    let scores := c.docs.map (fun p => (p.1, cosine_similarity sqrt vector_final query_vector))
    (c, Except.ok (sortDesc scores))

/-- The score mapping returned by `ir_models.vector_space_model`. -/
def vector_space_model {α : Type} [LinearOrderedField α] (lg sqrt : α → α)
    (c : bow_document_collection) (query : List (TermKey × α)) :
    Except String (List (DocId × α)) :=
  (vector_space_model_full lg sqrt c query).2

/-- The vector-space model as the spec describes it (§4.6): one weight
vector built separately per document over the full collection
vocabulary, each compared by cosine similarity against the query vector
of raw query frequencies.  Stated only to be compared against
`vector_space_model`. -/
def vector_space_model_perdoc {α : Type} [LinearOrderedField α] (lg sqrt : α → α)
    (c : bow_document_collection) (query : List (TermKey × α)) :
    Except String (List (DocId × α)) :=
  if c.docs.isEmpty then
    Except.error "collection: object contains no documents (bow_document objects)."
  else
    let all_terms := c.term_frequency.map (fun p => p.1)
    let query_vector := all_terms.map (fun t => dgetD query t 0)
    let scores := c.docs.map (fun p =>
      (p.1, cosine_similarity sqrt
        (all_terms.map (fun t => ((dgetD p.2.terms t 0 : ℕ) : α) * vsm_idf lg c t))
        query_vector))
    Except.ok (sortDesc scores)

/-- The counting loop of `ir_models.w5`: per term, the number of
documents containing it that are labelled relevant
(`term_relevance_count`, first component) and the number of documents
containing it overall (`term_total_count`, second component).  The
source reads `evaluations[doc_id]`, which presumes every document id
is labelled (a `KeyError` otherwise); a missing id is modelled as label
0 here, and the claims only concern totally-labelled mappings. -/
def w5_counts (c : bow_document_collection) (evaluations : List (DocId × Nat)) :
    List (TermKey × Nat) × List (TermKey × Nat) :=
  c.docs.foldl
    (fun (acc : List (TermKey × Nat) × List (TermKey × Nat)) p =>
      p.2.terms.foldl (fun acc2 tp =>
          (if dgetD evaluations p.1 0 = 1 then dictIncr acc2.1 tp.1 else acc2.1,
           dictIncr acc2.2 tp.1))
        acc)
    ([], [])

/-- `weight5_scores` in `ir_models.w5`: only the keys of
`term_relevance_count` are scored. -/
def weight5_scores {α : Type} [LinearOrderedField α] (c : bow_document_collection)
    (evaluations : List (DocId × Nat)) : List (TermKey × α) :=
  (w5_counts c evaluations).1.map (fun p =>
    (p.1,
      (((p.2 : α) + 0.5) /
          (((evaluations.filter (fun r => decide (r.2 = 1))).length : α) - (p.2 : α) + 0.5)) /
        ((((dgetD (w5_counts c evaluations).2 p.1 0 : ℕ) : α) - (p.2 : α) + 0.5) /
          ((c.docs.length : α) - ((dgetD (w5_counts c evaluations).2 p.1 0 : ℕ) : α)
            - ((evaluations.filter (fun r => decide (r.2 = 1))).length : α)
            + (p.2 : α) + 0.5))))

/-- `mean_weight5` in `ir_models.w5`: the mean of the weight-5 scores,
computed only when at least one entry is labelled relevant (`R > 0`).
The division by `len(weight5_scores)` raises `ZeroDivisionError` in
the source when `R > 0` but no term was scored; `w5` checks exactly
that before consulting this value. -/
def mean_weight5 {α : Type} [LinearOrderedField α] (c : bow_document_collection)
    (evaluations : List (DocId × Nat)) : α :=
  if 0 < (evaluations.filter (fun r => decide (r.2 = 1))).length then
    ((weight5_scores (α := α) c evaluations).map (fun p => p.2)).sum /
      ((weight5_scores (α := α) c evaluations).length : α)
  else 0

/-- `ir_models.w5`: score the terms with at least one relevant
occurrence; keep the terms scoring above `mean + theta`.  When `R > 0`
but `weight5_scores` is empty, the source's `sum(...) / len(...)`
divides by zero, so the model errors there. -/
def w5 {α : Type} [LinearOrderedField α] (c : bow_document_collection)
    (evaluations : List (DocId × Nat)) (theta : α) :
    Except String (List (TermKey × α)) :=
  if c.docs.isEmpty then
    Except.error "collection: object contains no documents (bow_document objects)."
  else if 0 < (evaluations.filter (fun r => decide (r.2 = 1))).length ∧
      weight5_scores (α := α) c evaluations = [] then
    Except.error "division by zero"
  else
    Except.ok ((weight5_scores c evaluations).filter
      (fun p => mean_weight5 c evaluations + theta < p.2))

/-- The specificity of one query term in `ir_tools.term_specificity`:
`(sum of the term's frequency over relevant docs - sum over
non-relevant docs) / |relevant docs|`, accumulated by one pass over the
collection's documents (`elif`: a document counted as relevant is never
also counted as non-relevant). -/
def ts_specificity {α : Type} [LinearOrderedField α] (c : bow_document_collection)
    (evaluations : List (DocId × Nat)) (t : TermKey) : α :=
  let relevant_docs := evaluations.filter (fun p => p.2 = 1)
  let non_relevant_docs := evaluations.filter (fun p => p.2 = 0)
  let cov := c.docs.foldl (fun (cov : α × α) p =>
    if (dget relevant_docs p.1).isSome then
      (cov.1 + ((dgetD p.2.terms t 0 : ℕ) : α), cov.2)
    else if (dget non_relevant_docs p.1).isSome then
      (cov.1, cov.2 + ((dgetD p.2.terms t 0 : ℕ) : α))
    else cov)
    (0, 0)
  (cov.1 - cov.2) / (relevant_docs.length : α)

/-- `ir_tools.term_specificity`. -/
def term_specificity {α : Type} [LinearOrderedField α] (c : bow_document_collection)
    (query : List (TermKey × α)) (evaluations : List (DocId × Nat))
    (theta_1 theta_2 : α) : Except String (List (TermKey × α)) :=
  if ¬ evaluations.all (fun p => p.2 = 0 ∨ p.2 = 1) then
    Except.error "evaluations: must be a dict with str keys and with values 0 or 1."
  else if c.docs.isEmpty then
    Except.error "bow_document_collectionection: object contains no documents (Rcv1Doc objects)."
  else if ¬ theta_1 < theta_2 then
    Except.error "theta_2: must be greater than theta_1."
  else
    let relevant_docs := evaluations.filter (fun p => p.2 = 1)
    let non_relevant_docs := evaluations.filter (fun p => p.2 = 0)
    if relevant_docs.length = 0 ∨ non_relevant_docs.length = 0 then
      Except.error "evaluations: each query must contain at least one relevant document and at least one non-relevant document."
    else
      let specificity : List (TermKey × α) := query.map (fun tq =>
        (tq.1, ts_specificity c evaluations tq.1))
      let positive_terms := (specificity.filter (fun p => theta_2 ≤ p.2)).map (fun p => p.1)
      let general_terms :=
        (specificity.filter (fun p => theta_1 < p.2 ∧ p.2 < theta_2)).map (fun p => p.1)
      let weighted_terms := query.map (fun tq =>
        let s := dgetD specificity tq.1 0
        if tq.1 ∈ positive_terms then (tq.1, tq.2 + tq.2 * s)
        else if tq.1 ∈ general_terms then (tq.1, tq.2)
        else (tq.1, tq.2 - |tq.2 * s|))
      Except.ok weighted_terms

/-- `ir_models.My_PRM`: run the supplied weighting function, binarise
its scores at `threshold` into pseudo-relevance labels, select features
with `w5`, rescore every document as the weighted sum of its own term
frequencies, then normalise and sort. -/
def My_PRM_full {α : Type} [LinearOrderedField α]
    (weighting : bow_document_collection → List (TermKey × α) →
      Except String (List (DocId × α)))
    (c : bow_document_collection) (query : List (TermKey × α))
    (threshold theta : α) :
    bow_document_collection × Except String (List (DocId × α)) :=
  let init : List (DocId × α) := c.docs.map (fun p => (p.1, 0))
  match weighting c query with
  | Except.error e => (c, Except.error e)
  | Except.ok weighting_result =>
    let relevant_documents : List (DocId × Nat) :=
      weighting_result.map (fun p => (p.1, if threshold < p.2 then 1 else 0))
    match w5 c relevant_documents theta with
    | Except.error e => (c, Except.error e)
    | Except.ok w5_results =>
      let doc_scores := c.docs.foldl (fun ds p =>
        p.2.terms.foldl (fun ds2 tp =>
            dictUpdate ds2 p.1 (fun s => s + (tp.2 : α) * dgetD w5_results tp.1 0))
          ds)
        init
      match score_normalisation doc_scores with
      | Except.error e => (c, Except.error e)
      | Except.ok ns => (c, Except.ok (sortDesc ns))

/-- The score mapping returned by `ir_models.My_PRM`. -/
def My_PRM {α : Type} [LinearOrderedField α]
    (weighting : bow_document_collection → List (TermKey × α) →
      Except String (List (DocId × α)))
    (c : bow_document_collection) (query : List (TermKey × α))
    (threshold theta : α) : Except String (List (DocId × α)) :=
  (My_PRM_full weighting c query threshold theta).2

/-! ### Concrete fixtures (the spec's end-to-end scenario, §8:
documents `{"1": {"cat": 2, "dog": 1}, "2": {"dog": 3}}`) -/

/-- The document `"1"` with terms `cat, cat, dog` added in order. -/
def exDocA : bow_document :=
  add_term (add_term (add_term (bow_document.mk0 "1") "cat") "cat") "dog"

/-- The document `"2"` with terms `dog, dog, dog` added in order. -/
def exDocB : bow_document :=
  add_term (add_term (add_term (bow_document.mk0 "2") "dog") "dog") "dog"

/-- The one-document collection holding `exDocA`. -/
def exColl1 : bow_document_collection := add_doc emptyCollection exDocA

/-- The two-document collection holding `exDocA` and `exDocB`. -/
def exColl2 : bow_document_collection := add_doc (add_doc emptyCollection exDocA) exDocB

/-- A one-document collection whose only document has length 0: the
collection on which BM25's mean document length is 0. -/
def exCollZ : bow_document_collection := add_doc emptyCollection (bow_document.mk0 "z")

/-! ### Dictionary lemmas -/

lemma dget_cons {V : Type} (p : String × V) (t : List (String × V)) (k : String) :
    dget (p :: t) k = if p.1 = k then some p.2 else dget t k := rfl

lemma dictUpdate_cons {V : Type} (p : String × V) (t : List (String × V))
    (k : String) (f : V → V) :
    dictUpdate (p :: t) k f
      = (if p.1 = k then (p.1, f p.2) else p) :: dictUpdate t k f := rfl

lemma dget_isSome_iff {V : Type} (l : List (String × V)) (k : String) :
    (dget l k).isSome ↔ k ∈ l.map Prod.fst := by
  induction l with
  | nil => simp [dget]
  | cons p t ih =>
    by_cases h : p.1 = k
    · simp [dget_cons, h]
    · simp only [dget_cons, h, if_false, List.map_cons, List.mem_cons]
      rw [ih]
      constructor
      · exact Or.inr
      · rintro (hk | hk)
        · exact absurd hk.symm h
        · exact hk

lemma dget_dictUpdate {V : Type} (l : List (String × V)) (k t : String) (f : V → V) :
    dget (dictUpdate l k f) t = if t = k then (dget l k).map f else dget l t := by
  induction l with
  | nil =>
    by_cases h : t = k <;> simp [dget, dictUpdate, h]
  | cons p tl ih =>
    rw [dictUpdate_cons]
    by_cases hpk : p.1 = k
    · by_cases htk : t = k
      · subst htk
        simp [dget_cons, hpk]
      · have hpt : p.1 ≠ t := fun h => htk (h ▸ hpk)
        simp [dget_cons, hpk, hpt, htk, ih, show ¬ k = t from fun h => htk h.symm]
    · by_cases htk : t = k
      · subst htk
        have hpt : p.1 ≠ t := hpk
        simp [dget_cons, hpk, hpt, ih]
      · by_cases hpt : p.1 = t
        · simp [dget_cons, hpk, hpt, htk]
        · simp [dget_cons, hpk, hpt, htk, ih]

lemma dictUpdate_of_not_mem {V : Type} (l : List (String × V)) (k : String) (f : V → V)
    (h : k ∉ l.map Prod.fst) : dictUpdate l k f = l := by
  induction l with
  | nil => rfl
  | cons p t ih =>
    simp only [List.map_cons, List.mem_cons] at h
    push_neg at h
    rw [dictUpdate_cons, if_neg (fun hh => h.1 hh.symm), ih h.2]

lemma dictUpdate_id {V : Type} (l : List (String × V)) (k : String) :
    dictUpdate l k (fun v => v) = l := by
  induction l with
  | nil => rfl
  | cons p t ih =>
    rw [dictUpdate_cons, ih]
    congr 1
    split <;> rfl

lemma dgetD_dictIncr (l : List (String × Nat)) (k t : String) :
    dgetD (dictIncr l k) t 0 = dgetD l t 0 + if k = t then 1 else 0 := by
  unfold dictIncr
  by_cases hk : (dget l k).isSome
  · rw [if_pos hk]
    unfold dgetD
    rw [dget_dictUpdate]
    by_cases htk : t = k
    · subst htk
      obtain ⟨v, hv⟩ := Option.isSome_iff_exists.mp hk
      simp [hv]
    · simp [htk, show ¬ k = t from fun h => htk h.symm]
  · rw [if_neg hk]
    rw [Option.not_isSome_iff_eq_none] at hk
    unfold dgetD
    revert hk
    induction l with
    | nil =>
      intro _
      by_cases htk : k = t
      · simp [dget, dget_cons, htk]
      · simp [dget, dget_cons, htk]
    | cons p tl ihl =>
      intro hk
      rw [dget_cons] at hk
      by_cases hpk : p.1 = k
      · simp [hpk] at hk
      · rw [if_neg hpk] at hk
        by_cases hpt : p.1 = t
        · simp [List.cons_append, dget_cons, hpt,
            show ¬ k = t from fun h => hpk (hpt.trans h.symm)]
        · simp only [List.cons_append, dget_cons, hpt, if_neg hpt]
          exact ihl hk

lemma dget_mem {V : Type} (m : List (String × V)) (t : String) (v : V)
    (h : dget m t = some v) : (t, v) ∈ m := by
  induction m with
  | nil => simp [dget] at h
  | cons p tl ih =>
    obtain ⟨a, b⟩ := p
    rw [dget_cons] at h
    by_cases hpt : (a, b).1 = t
    · rw [if_pos hpt] at h
      injection h with h
      have : ((t, v) : String × V) = (a, b) := by
        rw [← hpt, ← h]
      rw [this]
      exact List.mem_cons_self _ _
    · rw [if_neg hpt] at h
      exact List.mem_cons_of_mem _ (ih h)

lemma foldl_prod_split {β1 β2 γ : Type} (f1 : β1 → γ → β1) (f2 : β2 → γ → β2) :
    ∀ (l : List γ) (a : β1) (b : β2),
      l.foldl (fun st x => (f1 st.1 x, f2 st.2 x)) (a, b) = (l.foldl f1 a, l.foldl f2 b) := by
  intro l
  induction l with
  | nil => intro a b; rfl
  | cons x t ih => intro a b; simp only [List.foldl_cons]; exact ih _ _

lemma foldl_dictUpdate_cons {D β : Type} (G : String → D → β → β)
    (l : List (String × D)) (id : String) (w : β) (acc : List (String × β))
    (h : id ∉ l.map Prod.fst) :
    l.foldl (fun a p => dictUpdate a p.1 (G p.1 p.2)) ((id, w) :: acc)
      = (id, w) :: l.foldl (fun a p => dictUpdate a p.1 (G p.1 p.2)) acc := by
  induction l generalizing acc with
  | nil => rfl
  | cons p t ih =>
    simp only [List.map_cons, List.mem_cons] at h
    push_neg at h
    simp only [List.foldl_cons]
    rw [show dictUpdate ((id, w) :: acc) p.1 (G p.1 p.2)
          = (id, w) :: dictUpdate acc p.1 (G p.1 p.2) from by
        rw [dictUpdate_cons, if_neg (show ¬ ((id, w).1 = p.1) from h.1)]]
    exact ih _ h.2

lemma foldl_dictUpdate_zip {D β : Type} (G : String → D → β → β) :
    ∀ (l : List (String × D)) (acc : List (String × β)),
      acc.map Prod.fst = l.map Prod.fst → (l.map Prod.fst).Nodup →
      l.foldl (fun a p => dictUpdate a p.1 (G p.1 p.2)) acc
        = List.zipWith (fun p q => (p.1, G q.1 q.2 p.2)) acc l := by
  intro l
  induction l with
  | nil =>
    intro acc halign _
    simp only [List.map_nil, List.map_eq_nil_iff] at halign
    subst halign
    rfl
  | cons q t ih =>
    intro acc halign hnd
    match acc with
    | [] => simp at halign
    | p :: acc' =>
      simp only [List.map_cons, List.cons.injEq] at halign
      obtain ⟨hpq, halign'⟩ := halign
      simp only [List.map_cons, List.nodup_cons] at hnd
      simp only [List.foldl_cons]
      have hupd : dictUpdate (p :: acc') q.1 (G q.1 q.2)
          = (p.1, G q.1 q.2 p.2) :: acc' := by
        rw [dictUpdate_cons, if_pos hpq,
          dictUpdate_of_not_mem _ _ _ (by rw [halign']; exact hnd.1)]
      rw [hupd, foldl_dictUpdate_cons G t p.1 (G q.1 q.2 p.2) _ (by rw [hpq]; exact hnd.1),
        ih acc' halign' hnd.2]
      simp

lemma zipWith_self_map {D β : Type} (G : String → D → β → β) (g : String × D → β) :
    ∀ (l : List (String × D)),
      List.zipWith (fun p q => (p.1, G q.1 q.2 p.2)) (l.map (fun q => (q.1, g q))) l
        = l.map (fun q => (q.1, G q.1 q.2 (g q))) := by
  intro l
  induction l with
  | nil => rfl
  | cons q t ih => simp [List.zipWith, ih]

lemma foldl_dictUpdate_map {D β : Type} (G : String → D → β → β)
    (l : List (String × D)) (g : String × D → β)
    (hnd : (l.map Prod.fst).Nodup) :
    l.foldl (fun a p => dictUpdate a p.1 (G p.1 p.2)) (l.map (fun q => (q.1, g q)))
      = l.map (fun q => (q.1, G q.1 q.2 (g q))) := by
  rw [foldl_dictUpdate_zip G l _ (by simp) hnd, zipWith_self_map]

/-! ### The stable descending sort -/

lemma insertDesc_perm {β : Type} [LinearOrder β] (x : String × β) (l : List (String × β)) :
    (insertDesc x l).Perm (x :: l) := by
  induction l with
  | nil => exact List.Perm.refl _
  | cons y ys ih =>
    unfold insertDesc
    by_cases h : x.2 ≤ y.2
    · simp only [h, if_true]
      exact (ih.cons y).trans (List.Perm.swap x y ys)
    · simp only [h, if_false]
      exact List.Perm.refl _

lemma insertDesc_pairwise {β : Type} [LinearOrder β] (x : String × β)
    (l : List (String × β)) (h : l.Pairwise (fun a b => b.2 ≤ a.2)) :
    (insertDesc x l).Pairwise (fun a b : String × β => b.2 ≤ a.2) := by
  induction l with
  | nil => simp [insertDesc]
  | cons y ys ih =>
    rw [List.pairwise_cons] at h
    unfold insertDesc
    by_cases hle : x.2 ≤ y.2
    · simp only [hle, if_true]
      rw [List.pairwise_cons]
      refine ⟨fun z hz => ?_, ih h.2⟩
      rcases List.mem_cons.mp ((insertDesc_perm x ys).mem_iff.mp hz) with hz | hz
      · rw [hz]; exact hle
      · exact h.1 z hz
    · simp only [hle, if_false]
      rw [List.pairwise_cons]
      refine ⟨fun z hz => ?_, List.pairwise_cons.mpr h⟩
      rcases List.mem_cons.mp hz with hz | hz
      · rw [hz]; exact le_of_not_le hle
      · exact le_trans (h.1 z hz) (le_of_not_le hle)

lemma insertDesc_filter {β : Type} [LinearOrder β] (x : String × β)
    (l : List (String × β)) (h : l.Pairwise (fun a b => b.2 ≤ a.2)) (v : β) :
    (insertDesc x l).filter (fun p => decide (p.2 = v))
      = if x.2 = v then l.filter (fun p => decide (p.2 = v)) ++ [x]
        else l.filter (fun p => decide (p.2 = v)) := by
  induction l with
  | nil => by_cases hxv : x.2 = v <;> simp [insertDesc, hxv]
  | cons y ys ih =>
    rw [List.pairwise_cons] at h
    unfold insertDesc
    by_cases hle : x.2 ≤ y.2
    · simp only [hle, if_true]
      by_cases hxv : x.2 = v <;> by_cases hyv : y.2 = v <;>
        simp [List.filter_cons, hxv, hyv, ih h.2]
    · simp only [hle, if_false]
      have hlt : y.2 < x.2 := lt_of_not_le hle
      by_cases hxv : x.2 = v
      · have hnil : (y :: ys).filter (fun p => decide (p.2 = v)) = [] := by
          rw [List.filter_eq_nil_iff]
          intro z hz
          have hzle : z.2 ≤ y.2 := by
            rcases List.mem_cons.mp hz with hz | hz
            · rw [hz]
            · exact h.1 z hz
          simp only [decide_eq_true_eq]
          intro hzv
          rw [hzv, ← hxv] at hzle
          exact absurd hzle (not_le_of_lt hlt)
        rw [if_pos hxv, List.filter_cons_of_pos (by simp [hxv]), hnil]
        rfl
      · rw [if_neg hxv, List.filter_cons_of_neg (by simp [hxv])]

lemma sortDesc_aux {β : Type} [LinearOrder β] :
    ∀ (l acc : List (String × β)), acc.Pairwise (fun a b => b.2 ≤ a.2) →
      (l.foldl (fun a x => insertDesc x a) acc).Pairwise (fun a b => b.2 ≤ a.2) ∧
      (l.foldl (fun a x => insertDesc x a) acc).Perm (acc ++ l) ∧
      ∀ v, (l.foldl (fun a x => insertDesc x a) acc).filter (fun p => decide (p.2 = v))
        = acc.filter (fun p => decide (p.2 = v)) ++ l.filter (fun p => decide (p.2 = v)) := by
  intro l
  induction l with
  | nil =>
    intro acc hacc
    simpa using hacc
  | cons x xs ih =>
    intro acc hacc
    simp only [List.foldl_cons]
    obtain ⟨h1, h2, h3⟩ := ih (insertDesc x acc) (insertDesc_pairwise x acc hacc)
    refine ⟨h1, ?_, ?_⟩
    · refine h2.trans ?_
      refine ((insertDesc_perm x acc).append_right xs).trans ?_
      exact List.perm_middle.symm
    · intro v
      rw [h3 v, insertDesc_filter x acc hacc v, List.filter_cons]
      by_cases hxv : x.2 = v <;> simp [hxv]

lemma sortDesc_pairwise {β : Type} [LinearOrder β] (l : List (String × β)) :
    (sortDesc l).Pairwise (fun a b => b.2 ≤ a.2) :=
  (sortDesc_aux l [] (List.Pairwise.nil)).1

lemma sortDesc_perm {β : Type} [LinearOrder β] (l : List (String × β)) :
    (sortDesc l).Perm l :=
  (sortDesc_aux l [] (List.Pairwise.nil)).2.1

lemma sortDesc_filter {β : Type} [LinearOrder β] (l : List (String × β)) (v : β) :
    (sortDesc l).filter (fun p => decide (p.2 = v)) = l.filter (fun p => decide (p.2 = v)) :=
  (sortDesc_aux l [] (List.Pairwise.nil)).2.2 v

/-! ### Minimum/maximum of a value fold -/

lemma foldl_min_mem {α : Type} [LinearOrder α] (l : List α) (a : α) :
    l.foldl min a ∈ a :: l := by
  induction l generalizing a with
  | nil => simp
  | cons b t ih =>
    simp only [List.foldl_cons]
    rcases List.mem_cons.mp (ih (min a b)) with h | h
    · rcases min_choice a b with hm | hm <;> rw [h, hm] <;> simp
    · simp only [List.mem_cons] at *
      exact Or.inr (Or.inr h)

lemma foldl_min_le {α : Type} [LinearOrder α] (l : List α) (a : α) :
    ∀ x ∈ a :: l, l.foldl min a ≤ x := by
  induction l generalizing a with
  | nil =>
    intro x hx
    simp only [List.mem_singleton] at hx
    rw [hx]
    exact le_refl _
  | cons b t ih =>
    intro x hx
    simp only [List.foldl_cons]
    rcases List.mem_cons.mp hx with h | h
    · rw [h]
      exact (ih (min a b) (min a b) (List.mem_cons_self _ _)).trans (min_le_left a b)
    · rcases List.mem_cons.mp h with h2 | h2
      · rw [h2]
        exact (ih (min a b) (min a b) (List.mem_cons_self _ _)).trans (min_le_right a b)
      · exact ih (min a b) x (List.mem_cons_of_mem _ h2)

lemma foldl_max_mem {α : Type} [LinearOrder α] (l : List α) (a : α) :
    l.foldl max a ∈ a :: l := by
  induction l generalizing a with
  | nil => simp
  | cons b t ih =>
    simp only [List.foldl_cons]
    rcases List.mem_cons.mp (ih (max a b)) with h | h
    · rcases max_choice a b with hm | hm <;> rw [h, hm] <;> simp
    · simp only [List.mem_cons] at *
      exact Or.inr (Or.inr h)

lemma le_foldl_max {α : Type} [LinearOrder α] (l : List α) (a : α) :
    ∀ x ∈ a :: l, x ≤ l.foldl max a := by
  induction l generalizing a with
  | nil =>
    intro x hx
    simp only [List.mem_singleton] at hx
    rw [hx]
    exact le_refl _
  | cons b t ih =>
    intro x hx
    simp only [List.foldl_cons]
    rcases List.mem_cons.mp hx with h | h
    · rw [h]
      exact (le_max_left a b).trans (ih (max a b) (max a b) (List.mem_cons_self _ _))
    · rcases List.mem_cons.mp h with h2 | h2
      · rw [h2]
        exact (le_max_right a b).trans (ih (max a b) (max a b) (List.mem_cons_self _ _))
      · exact ih (max a b) x (List.mem_cons_of_mem _ h2)

/-! ### Claim theorems -/

/-- C6: for every non-empty score mapping, `score_normalisation` returns
`(score - min)/(max - min)` per document when `max ≠ min`, so for a
non-constant mapping the minimum output is 0 and the maximum output is
1, with the key list unchanged; when `max = min` every score maps to
exactly 0. -/
theorem C6_score_normalisation_minmax {α : Type} [LinearOrderedField α]
    (s : DocId × α) (rest : List (DocId × α)) :
    ((rest.map (fun p => p.2)).foldl max s.2 - (rest.map (fun p => p.2)).foldl min s.2 = 0 →
      score_normalisation (s :: rest) = Except.ok ((s :: rest).map (fun p => (p.1, (0:α))))) ∧
    ((rest.map (fun p => p.2)).foldl max s.2 - (rest.map (fun p => p.2)).foldl min s.2 ≠ 0 →
      score_normalisation (s :: rest)
          = Except.ok ((s :: rest).map (fun p => (p.1,
              (p.2 - (rest.map (fun p => p.2)).foldl min s.2) /
                ((rest.map (fun p => p.2)).foldl max s.2 -
                  (rest.map (fun p => p.2)).foldl min s.2)))) ∧
      ((s :: rest).map (fun p => (p.1,
              (p.2 - (rest.map (fun p => p.2)).foldl min s.2) /
                ((rest.map (fun p => p.2)).foldl max s.2 -
                  (rest.map (fun p => p.2)).foldl min s.2)))).map Prod.fst
          = (s :: rest).map Prod.fst ∧
      (∃ p ∈ (s :: rest).map (fun p => (p.1,
              (p.2 - (rest.map (fun p => p.2)).foldl min s.2) /
                ((rest.map (fun p => p.2)).foldl max s.2 -
                  (rest.map (fun p => p.2)).foldl min s.2))), p.2 = 0) ∧
      (∃ p ∈ (s :: rest).map (fun p => (p.1,
              (p.2 - (rest.map (fun p => p.2)).foldl min s.2) /
                ((rest.map (fun p => p.2)).foldl max s.2 -
                  (rest.map (fun p => p.2)).foldl min s.2))), p.2 = 1) ∧
      ∀ p ∈ (s :: rest).map (fun p => (p.1,
              (p.2 - (rest.map (fun p => p.2)).foldl min s.2) /
                ((rest.map (fun p => p.2)).foldl max s.2 -
                  (rest.map (fun p => p.2)).foldl min s.2))), 0 ≤ p.2 ∧ p.2 ≤ 1) := by
  set mn := (rest.map (fun p => p.2)).foldl min s.2 with hmn
  set mx := (rest.map (fun p => p.2)).foldl max s.2 with hmx
  have hvals : ∀ p ∈ s :: rest, mn ≤ p.2 ∧ p.2 ≤ mx := by
    intro p hp
    have hmem : p.2 ∈ s.2 :: rest.map (fun p => p.2) := by
      rcases List.mem_cons.mp hp with h | h
      · rw [h]; exact List.mem_cons_self _ _
      · exact List.mem_cons_of_mem _ (List.mem_map_of_mem _ h)
    exact ⟨foldl_min_le _ _ _ hmem, le_foldl_max _ _ _ hmem⟩
  constructor
  · intro h
    simp only [score_normalisation]
    rw [if_pos h]
  · intro h
    have hmnmx : mn ≤ mx :=
      le_trans (hvals s (List.mem_cons_self _ _)).1 (hvals s (List.mem_cons_self _ _)).2
    have hlt : 0 < mx - mn := by
      rcases lt_or_eq_of_le hmnmx with hlt | heq
      · exact sub_pos.mpr hlt
      · exact absurd (by rw [← heq]; ring) h
    refine ⟨?_, ?_, ?_, ?_, ?_⟩
    · simp only [score_normalisation]
      rw [if_neg h]
    · simp
    · have hminmem := foldl_min_mem (rest.map fun p => p.2) s.2
      have hex : ∃ q ∈ s :: rest, q.2 = mn := by
        rcases List.mem_cons.mp hminmem with h0 | h0
        · exact ⟨s, List.mem_cons_self _ _, h0.symm⟩
        · rcases List.mem_map.mp h0 with ⟨q, hq, hq2⟩
          exact ⟨q, List.mem_cons_of_mem _ hq, hq2⟩
      obtain ⟨q, hq, hq2⟩ := hex
      refine ⟨(q.1, (q.2 - mn) / (mx - mn)), List.mem_map_of_mem _ hq, ?_⟩
      simp [hq2, sub_self]
    · have hmaxmem := foldl_max_mem (rest.map fun p => p.2) s.2
      have hex : ∃ q ∈ s :: rest, q.2 = mx := by
        rcases List.mem_cons.mp hmaxmem with h0 | h0
        · exact ⟨s, List.mem_cons_self _ _, h0.symm⟩
        · rcases List.mem_map.mp h0 with ⟨q, hq, hq2⟩
          exact ⟨q, List.mem_cons_of_mem _ hq, hq2⟩
      obtain ⟨q, hq, hq2⟩ := hex
      refine ⟨(q.1, (q.2 - mn) / (mx - mn)), List.mem_map_of_mem _ hq, ?_⟩
      simp only [hq2]
      exact div_self (ne_of_gt hlt)
    · intro p hp
      rcases List.mem_map.mp hp with ⟨q, hq, rfl⟩
      constructor
      · exact div_nonneg (sub_nonneg.mpr (hvals q hq).1) hlt.le
      · rw [div_le_one hlt]
        exact sub_le_sub_right (hvals q hq).2 mn

/-- Witness for C6 at a concrete non-constant and a concrete constant
score mapping. -/
theorem C6_witness :
    score_normalisation [("a", (2:ℚ)), ("b", 4), ("c", 3)]
        = Except.ok [("a", 0), ("b", 1), ("c", 1/2)] ∧
    score_normalisation [("a", (5:ℚ)), ("b", 5)] = Except.ok [("a", 0), ("b", 0)] := by
  constructor
  · have h := (C6_score_normalisation_minmax ("a", (2:ℚ)) [("b", 4), ("c", 3)]).2
      (by norm_num [List.foldl, max_def, min_def])
    rw [h.1]
    exact congrArg Except.ok (by norm_num [List.foldl, max_def, min_def])
  · have h := (C6_score_normalisation_minmax ("a", (5:ℚ)) [("b", 5)]).1
      (by norm_num [List.foldl, max_def, min_def])
    rw [h]
    exact congrArg Except.ok (by norm_num)

/-- C5: every ranking or feedback operation (`BM25`, `JM_LM`,
`vector_space_model`, `w5`, `term_specificity`, `My_PRM`) invoked on a
collection with zero documents produces an error rather than a
result. -/
theorem C5_empty_collection_errors {α : Type} [LinearOrderedField α] (lg sq : α → α)
    (c : bow_document_collection) (hc : c.docs = []) :
    (∀ q : List (TermKey × α), ∃ e, BM25 lg c q = Except.error e) ∧
    (∀ q : List (TermKey × ℚ), ∃ e, JM_LM c q = Except.error e) ∧
    (∀ q : List (TermKey × α), ∃ e, vector_space_model lg sq c q = Except.error e) ∧
    (∀ (ev : List (DocId × Nat)) (th : α), ∃ e, w5 c ev th = Except.error e) ∧
    (∀ (q : List (TermKey × α)) (ev : List (DocId × Nat)) (t1 t2 : α),
      ∃ e, term_specificity c q ev t1 t2 = Except.error e) ∧
    (∀ (wf : bow_document_collection → List (TermKey × α) →
        Except String (List (DocId × α)))
       (q : List (TermKey × α)) (th t : α), ∃ e, My_PRM wf c q th t = Except.error e) := by
  have hemp : c.docs.isEmpty = true := by rw [hc]; rfl
  refine ⟨?_, ?_, ?_, ?_, ?_, ?_⟩
  · intro q
    exact ⟨"collection: object contains no documents (bow_document objects).",
      by simp [BM25, BM25_full, hemp]⟩
  · intro q
    exact ⟨"bow_document_collection: object contains no documents (bow_document objects).",
      by simp [JM_LM, JM_LM_full, hemp]⟩
  · intro q
    exact ⟨"collection: object contains no documents (bow_document objects).",
      by simp [vector_space_model, vector_space_model_full, hemp]⟩
  · intro ev th
    exact ⟨"collection: object contains no documents (bow_document objects).",
      by simp [w5, hemp]⟩
  · intro q ev t1 t2
    by_cases hv : (ev.all fun p => decide (p.2 = 0 ∨ p.2 = 1)) = true
    · refine ⟨"bow_document_collectionection: object contains no documents (Rcv1Doc objects).", ?_⟩
      unfold term_specificity
      rw [if_neg (not_not_intro hv), if_pos hemp]
    · refine ⟨"evaluations: must be a dict with str keys and with values 0 or 1.", ?_⟩
      unfold term_specificity
      rw [if_pos hv]
  · intro wf q th t
    cases hw : wf c q with
    | error e =>
      exact ⟨e, by simp [My_PRM, My_PRM_full, hw]⟩
    | ok wr =>
      refine ⟨"collection: object contains no documents (bow_document objects).", ?_⟩
      have hw5 : w5 c (wr.map (fun p => (p.1, if th < p.2 then 1 else 0))) t
          = Except.error
            "collection: object contains no documents (bow_document objects)." := by
        simp [w5, hemp]
      simp [My_PRM, My_PRM_full, hw, hw5]

/-- Witness for C5 at the empty collection. -/
theorem C5_witness :
    emptyCollection.docs = [] ∧
    (∃ e, BM25 (fun x : ℚ => x) emptyCollection [] = Except.error e) ∧
    (∃ e, JM_LM emptyCollection [] = Except.error e) ∧
    (∃ e, vector_space_model (fun x : ℚ => x) (fun x => x) emptyCollection []
        = Except.error e) ∧
    (∃ e, w5 (α := ℚ) emptyCollection [] 0 = Except.error e) ∧
    (∃ e, term_specificity (α := ℚ) emptyCollection [] [] 0 1 = Except.error e) ∧
    (∃ e, My_PRM (fun _ _ => Except.ok []) emptyCollection [] 0 (0:ℚ)
        = Except.error e) := by
  have h := C5_empty_collection_errors (α := ℚ) (fun x => x) (fun x => x)
    emptyCollection rfl
  exact ⟨rfl, h.1 [], h.2.1 [], h.2.2.1 [], h.2.2.2.1 [] 0, h.2.2.2.2.1 [] [] 0 1,
    h.2.2.2.2.2 _ [] 0 0⟩

/-- C9: no ranking model mutates the collection: the collection
component threaded through `BM25_full`, `JM_LM_full`,
`vector_space_model_full` and `My_PRM_full` is returned unchanged, so
the docs mapping, `term_doc_count`, `term_frequency` and every
document's terms and length are identical before and after a call. -/
theorem C9_models_do_not_mutate {α : Type} [LinearOrderedField α] (lg sq : α → α)
    (wf : bow_document_collection → List (TermKey × α) → Except String (List (DocId × α)))
    (c : bow_document_collection) (q : List (TermKey × α)) (qjm : List (TermKey × ℚ))
    (th t : α) :
    (BM25_full lg c q).1 = c ∧ (JM_LM_full c qjm).1 = c ∧
    (vector_space_model_full lg sq c q).1 = c ∧ (My_PRM_full wf c q th t).1 = c := by
  refine ⟨?_, ?_, ?_, ?_⟩
  · unfold BM25_full
    split
    · rfl
    · split
      · rfl
      · split <;> rfl
  · unfold JM_LM_full
    split <;> rfl
  · unfold vector_space_model_full
    split <;> rfl
  · unfold My_PRM_full
    cases hw : wf c q with
    | error e => rfl
    | ok wr =>
      simp only [hw]
      split
      · rfl
      · split <;> rfl

/-- `add_doc` updates both count dictionaries by one identical fold over
the document's distinct term keys. -/
lemma add_doc_term_counts (c : bow_document_collection) (d : bow_document) :
    (add_doc c d).term_doc_count
        = (d.terms.map Prod.fst).foldl dictIncr c.term_doc_count ∧
    (add_doc c d).term_frequency
        = (d.terms.map Prod.fst).foldl dictIncr c.term_frequency := by
  unfold add_doc
  rw [foldl_prod_split (fun (m : List (TermKey × Nat)) (p : TermKey × Nat) => dictIncr m p.1)
    (fun (m : List (TermKey × Nat)) (p : TermKey × Nat) => dictIncr m p.1)]
  constructor <;> simp [List.foldl_map]

lemma dgetD_foldl_dictIncr (keys : List TermKey) :
    ∀ (m : List (TermKey × Nat)) (t : TermKey),
      dgetD (keys.foldl dictIncr m) t 0 = dgetD m t 0 + keys.count t := by
  induction keys with
  | nil => intro m t; simp
  | cons k ks ih =>
    intro m t
    simp only [List.foldl_cons]
    rw [ih (dictIncr m k) t, dgetD_dictIncr]
    by_cases hkt : k = t
    · subst hkt
      simp [List.count_cons]
      omega
    · simp [List.count_cons, hkt, show ¬ t = k from fun h => hkt h.symm]

lemma foldl_add_doc_counts (ds : List bow_document) (t : TermKey) :
    ∀ (c0 : bow_document_collection),
      (∀ d ∈ ds, (d.terms.map Prod.fst).Nodup) →
      dgetD (ds.foldl add_doc c0).term_doc_count t 0
          = dgetD c0.term_doc_count t 0
            + (ds.filter (fun d => (dget d.terms t).isSome)).length ∧
      (c0.term_frequency = c0.term_doc_count →
        (ds.foldl add_doc c0).term_frequency = (ds.foldl add_doc c0).term_doc_count) := by
  induction ds with
  | nil => intro c0 _; exact ⟨by simp, fun h => h⟩
  | cons d ds ih =>
    intro c0 h
    simp only [List.foldl_cons]
    obtain ⟨hc1, hc2⟩ := ih (add_doc c0 d) (fun x hx => h x (List.mem_cons_of_mem _ hx))
    constructor
    · rw [hc1, (add_doc_term_counts c0 d).1, dgetD_foldl_dictIncr]
      have hd := h d (List.mem_cons_self _ _)
      by_cases hmem : (dget d.terms t).isSome
      · have hcount : (d.terms.map Prod.fst).count t = 1 :=
          List.count_eq_one_of_mem hd ((dget_isSome_iff _ _).mp hmem)
        rw [List.filter_cons_of_pos (by simp [hmem]), hcount]
        simp only [List.length_cons]
        omega
      · have hcount : (d.terms.map Prod.fst).count t = 0 :=
          List.count_eq_zero.mpr (fun hmem2 => hmem ((dget_isSome_iff _ _).mpr hmem2))
        rw [List.filter_cons_of_neg (by simp [hmem]), hcount]
        omega
    · intro heq
      exact hc2 (by
        rw [(add_doc_term_counts c0 d).1, (add_doc_term_counts c0 d).2, heq])

/-- C4: for a collection built by any sequence of `add_doc` calls,
`term_doc_count[t]` equals the number of added documents whose term
dictionary contains `t` (regardless of the in-document frequency), and
`term_frequency` is numerically identical to `term_doc_count` after
every `add_doc` call. -/
theorem C4_doc_frequency_counts (ds : List bow_document) (t : TermKey)
    (h : ∀ d ∈ ds, (d.terms.map Prod.fst).Nodup) :
    dgetD (ds.foldl add_doc emptyCollection).term_doc_count t 0
        = (ds.filter (fun d => (dget d.terms t).isSome)).length ∧
    (ds.foldl add_doc emptyCollection).term_frequency
        = (ds.foldl add_doc emptyCollection).term_doc_count := by
  obtain ⟨h1, h2⟩ := foldl_add_doc_counts ds t emptyCollection h
  refine ⟨?_, h2 rfl⟩
  rw [h1]
  simp [emptyCollection, dgetD, dget]

/-- Witness for C4: the term `dog` occurs in both example documents
(twice in one of them), and `term_doc_count["dog"] = 2`. -/
theorem C4_witness :
    dgetD ([exDocA, exDocB].foldl add_doc emptyCollection).term_doc_count "dog" 0
        = ([exDocA, exDocB].filter (fun d => (dget d.terms "dog").isSome)).length ∧
    ([exDocA, exDocB].foldl add_doc emptyCollection).term_frequency
        = ([exDocA, exDocB].foldl add_doc emptyCollection).term_doc_count :=
  C4_doc_frequency_counts [exDocA, exDocB] "dog" (by decide)

/-! ### BM25's checked loop: success and failure of the divisions -/

lemma foldlM_eq_ok {γ δ : Type} (step : δ → γ → Except String δ) (pstep : δ → γ → δ)
    (l : List γ) :
    ∀ acc : δ, (∀ acc2 : δ, ∀ x ∈ l, step acc2 x = Except.ok (pstep acc2 x)) →
      l.foldlM step acc = Except.ok (l.foldl pstep acc) := by
  induction l with
  | nil =>
    intro acc _
    rfl
  | cons x t ih =>
    intro acc h
    rw [List.foldlM_cons, h acc x (List.mem_cons_self _ _)]
    rw [show ((Except.ok (pstep acc x) : Except String δ) >>=
          fun b => t.foldlM step b) = t.foldlM step (pstep acc x) from rfl]
    rw [List.foldl_cons]
    exact ih (pstep acc x) (fun acc2 y hy => h acc2 y (List.mem_cons_of_mem _ hy))

lemma foldlM_err_head {γ δ : Type} (step : δ → γ → Except String δ) (x : γ)
    (t : List γ) (acc : δ) (e : String) (h : step acc x = Except.error e) :
    (x :: t).foldlM step acc = Except.error e := by
  rw [List.foldlM_cons, h]
  rfl

lemma mean_doc_len_pos {α : Type} [LinearOrderedField α] (c : bow_document_collection)
    (hne : c.docs ≠ []) (hlen : 0 < total_corpus_length c) :
    0 < mean_doc_len α c := by
  have hN : 0 < (c.docs.length : α) := by
    exact_mod_cast List.length_pos.mpr hne
  unfold mean_doc_len
  exact div_pos (by exact_mod_cast hlen) hN

lemma bm25_K_add_pos {α : Type} [LinearOrderedField α] (c : bow_document_collection)
    (doc : bow_document) (f : ℕ) (hmean : 0 < mean_doc_len α c) :
    0 < bm25_K c doc + (f : α) := by
  have hx : (0:α) ≤ 0.75 * (doc.doc_len : α) / mean_doc_len α c :=
    div_nonneg (by positivity) hmean.le
  have hf : (0:α) ≤ (f : α) := Nat.cast_nonneg f
  unfold bm25_K
  nlinarith [hx, hf]

lemma dgetD_le_of_bounded (m : List (String × ℕ)) (t : String) (n : ℕ)
    (h : ∀ p ∈ m, p.2 ≤ n) : dgetD m t 0 ≤ n := by
  unfold dgetD
  cases hd : dget m t with
  | none => exact Nat.zero_le n
  | some v => exact h (t, v) (dget_mem m t v hd)

lemma bm25_idf_arg_pos {α : Type} [LinearOrderedField α] (c : bow_document_collection)
    (t : TermKey) (hcnt : ∀ p ∈ c.term_doc_count, p.2 ≤ c.docs.length) :
    0 < (((0:α) + 0.5) / ((0:α) - 0 + 0.5)) /
      ((((dgetD c.term_doc_count t 0 : ℕ) : α) - 0 + 0.5) /
        ((c.docs.length : α) - ((dgetD c.term_doc_count t 0 : ℕ) : α) - 0 + 0 + 0.5)) := by
  have hni : (dgetD c.term_doc_count t 0 : ℕ) ≤ c.docs.length :=
    dgetD_le_of_bounded c.term_doc_count t c.docs.length hcnt
  have hcast : ((dgetD c.term_doc_count t 0 : ℕ) : α) ≤ (c.docs.length : α) :=
    Nat.cast_le.mpr hni
  have hnn : (0:α) ≤ ((dgetD c.term_doc_count t 0 : ℕ) : α) := Nat.cast_nonneg _
  apply div_pos
  · norm_num
  · apply div_pos
    · linarith
    · linarith

lemma bm25_inner_step_ok {α : Type} [LinearOrderedField α] (lg : α → α)
    (c : bow_document_collection) (tq : TermKey × α)
    (hmean : 0 < mean_doc_len α c) (hqf : 0 ≤ tq.2)
    (acc : List (DocId × α)) (p : DocId × bow_document) :
    bm25_inner_step lg c tq acc p
      = Except.ok (dictUpdate acc p.1 (fun s => s + bm25_contrib lg c tq.1 tq.2 p.2)) := by
  unfold bm25_inner_step
  rw [if_neg hmean.ne', if_neg (bm25_K_add_pos c p.2 _ hmean).ne',
    if_neg (show ¬ (500 : α) + tq.2 = 0 from (by linarith : (0:α) < 500 + tq.2).ne')]

lemma bm25_term_step_ok {α : Type} [LinearOrderedField α] (lg : α → α)
    (c : bow_document_collection) (tq : TermKey × α)
    (hcnt : ∀ p ∈ c.term_doc_count, p.2 ≤ c.docs.length)
    (hmean : 0 < mean_doc_len α c) (hqf : 0 ≤ tq.2) (ds : List (DocId × α)) :
    bm25_term_step lg c ds tq
      = Except.ok (c.docs.foldl (fun acc p =>
          dictUpdate acc p.1 (fun s => s + bm25_contrib lg c tq.1 tq.2 p.2)) ds) := by
  unfold bm25_term_step
  rw [if_neg (not_le.mpr (bm25_idf_arg_pos c tq.1 hcnt))]
  exact foldlM_eq_ok (bm25_inner_step lg c tq) _ c.docs ds
    (fun acc2 p _ => bm25_inner_step_ok lg c tq hmean hqf acc2 p)

lemma bm25_foldlM_ok {α : Type} [LinearOrderedField α] (lg : α → α)
    (c : bow_document_collection) (q : List (TermKey × α))
    (hcnt : ∀ p ∈ c.term_doc_count, p.2 ≤ c.docs.length)
    (hmean : 0 < mean_doc_len α c) (hq : ∀ tq ∈ q, 0 ≤ tq.2)
    (init : List (DocId × α)) :
    q.foldlM (bm25_term_step lg c) init
      = Except.ok (q.foldl (fun ds tq =>
          c.docs.foldl (fun acc p =>
            dictUpdate acc p.1 (fun s => s + bm25_contrib lg c tq.1 tq.2 p.2)) ds) init) :=
  foldlM_eq_ok (bm25_term_step lg c) _ q init
    (fun ds tq htq => bm25_term_step_ok lg c tq hcnt hmean (hq tq htq) ds)

lemma bm25_term_step_err {α : Type} [LinearOrderedField α] (lg : α → α)
    (c : bow_document_collection) (tq : TermKey × α)
    (hcnt : ∀ p ∈ c.term_doc_count, p.2 ≤ c.docs.length)
    (hne : c.docs ≠ []) (h0 : mean_doc_len α c = 0) (ds : List (DocId × α)) :
    bm25_term_step lg c ds tq = Except.error "division by zero" := by
  unfold bm25_term_step
  rw [if_neg (not_le.mpr (bm25_idf_arg_pos c tq.1 hcnt))]
  cases hd : c.docs with
  | nil => exact absurd hd hne
  | cons d t =>
    exact foldlM_err_head (bm25_inner_step lg c tq) d t ds _
      (by unfold bm25_inner_step; rw [if_pos h0])

lemma bm25_foldlM_err {α : Type} [LinearOrderedField α] (lg : α → α)
    (c : bow_document_collection) (tq : TermKey × α) (rest : List (TermKey × α))
    (hcnt : ∀ p ∈ c.term_doc_count, p.2 ≤ c.docs.length)
    (hne : c.docs ≠ []) (h0 : mean_doc_len α c = 0) (init : List (DocId × α)) :
    (tq :: rest).foldlM (bm25_term_step lg c) init
      = Except.error "division by zero" :=
  foldlM_err_head (bm25_term_step lg c) tq rest init _
    (bm25_term_step_err lg c tq hcnt hne h0 init)

/-- C10: BM25's document-length divisions are guarded only by the
non-empty-collection check: with at least one positive-length document
the mean document length is positive and every saturation denominator
`K + f_td` is positive, but when every document has length 0 the mean
document length — the divisor in `b * doc_len / mean_doc_len` — is 0,
so for any non-empty query `BM25` raises an uncaught
`ZeroDivisionError` while computing `K` (here: returns the
division-by-zero error from the checked division, before any
normalisation or sorting), for any well-formed document-frequency table
(no term counted in more documents than the collection holds). -/
theorem C10_bm25_length_guard {α : Type} [LinearOrderedField α]
    (c : bow_document_collection) (hne : c.docs ≠ []) :
    ((∃ p ∈ c.docs, 0 < p.2.doc_len) →
      0 < mean_doc_len α c ∧
      ∀ p ∈ c.docs, ∀ f_td : ℕ, 0 < bm25_K c p.2 + (f_td : α)) ∧
    ((∀ p ∈ c.docs, p.2.doc_len = 0) → mean_doc_len α c = 0 ∧
      ∀ (lg : α → α) (tq : TermKey × α) (rest : List (TermKey × α)),
        (∀ p ∈ c.term_doc_count, p.2 ≤ c.docs.length) →
        BM25 lg c (tq :: rest) = Except.error "division by zero") := by
  have hempf : c.docs.isEmpty = false := by
    cases hd : c.docs
    · exact absurd hd hne
    · rfl
  constructor
  · rintro ⟨p0, hp0, hlen⟩
    have htot : 0 < total_corpus_length c := by
      unfold total_corpus_length
      calc 0 < p0.2.doc_len := hlen
        _ ≤ _ := List.single_le_sum (fun x _ => Nat.zero_le x) _
            (List.mem_map_of_mem (fun p => p.2.doc_len) hp0)
    have hmean : 0 < mean_doc_len α c := mean_doc_len_pos c hne htot
    exact ⟨hmean, fun p _ f => bm25_K_add_pos c p.2 f hmean⟩
  · intro hz
    have h0 : mean_doc_len α c = 0 := by
      unfold mean_doc_len total_corpus_length
      rw [List.sum_eq_zero (fun x hx => by
        rcases List.mem_map.mp hx with ⟨p, hp, rfl⟩
        exact hz p hp)]
      simp
    refine ⟨h0, ?_⟩
    intro lg tq rest hcnt
    simp only [BM25, BM25_full, hempf, Bool.false_eq_true, if_false]
    rw [bm25_foldlM_err lg c tq rest hcnt hne h0]

/-- Witness for C10 at the one-document collection with a length-3
document (no zero division), and at the one-document collection whose
only document has length 0 (the division-by-zero error). -/
theorem C10_witness :
    (exColl1.docs ≠ [] ∧ 0 < mean_doc_len ℚ exColl1 ∧
      ∀ p ∈ exColl1.docs, ∀ f_td : ℕ, 0 < bm25_K exColl1 p.2 + (f_td : ℚ)) ∧
    (exCollZ.docs ≠ [] ∧ (∀ p ∈ exCollZ.docs, p.2.doc_len = 0) ∧
      BM25 (fun x : ℚ => x) exCollZ [("cat", 1)] = Except.error "division by zero") := by
  have h1 := (C10_bm25_length_guard (α := ℚ) exColl1 (by decide)).1
    ⟨("1", exDocA), by decide, by decide⟩
  have h2 := (C10_bm25_length_guard (α := ℚ) exCollZ (by decide)).2 (by decide)
  exact ⟨⟨by decide, h1.1, h1.2⟩,
    ⟨by decide, by decide, h2.2 (fun x => x) ("cat", 1) [] (by decide)⟩⟩

/-! ### Loop/closed-form correspondence -/

lemma score_normalisation_ok {α : Type} [LinearOrderedField α]
    (l : List (DocId × α)) (h : l ≠ []) :
    ∃ out, score_normalisation l = Except.ok out := by
  cases l with
  | nil => exact absurd rfl h
  | cons s rest =>
    simp only [score_normalisation]
    by_cases hc : (rest.map (fun p => p.2)).foldl max s.2
        - (rest.map (fun p => p.2)).foldl min s.2 = 0
    · exact ⟨(s :: rest).map (fun p => (p.1, 0)), by rw [if_pos hc]⟩
    · exact ⟨(s :: rest).map (fun p => (p.1,
        (p.2 - (rest.map (fun p => p.2)).foldl min s.2) /
          ((rest.map (fun p => p.2)).foldl max s.2
            - (rest.map (fun p => p.2)).foldl min s.2))), by rw [if_neg hc]⟩

lemma bm25_loop {α : Type} [LinearOrderedField α] (lg : α → α)
    (c : bow_document_collection) (hnd : (c.docs.map Prod.fst).Nodup) :
    ∀ (q : List (TermKey × α)) (g : DocId × bow_document → α),
      q.foldl (fun ds tq =>
          c.docs.foldl (fun acc p =>
              dictUpdate acc p.1 (fun s => s + bm25_contrib lg c tq.1 tq.2 p.2)) ds)
        (c.docs.map (fun p => (p.1, g p)))
      = c.docs.map (fun p =>
          (p.1, g p + (q.map (fun tq => bm25_contrib lg c tq.1 tq.2 p.2)).sum)) := by
  intro q
  induction q with
  | nil =>
    intro g
    simp
  | cons tq qt ih =>
    intro g
    simp only [List.foldl_cons]
    rw [foldl_dictUpdate_map (fun _ doc s => s + bm25_contrib lg c tq.1 tq.2 doc) c.docs g hnd]
    rw [ih (fun p => g p + bm25_contrib lg c tq.1 tq.2 p.2)]
    congr 1
    funext p
    simp [add_assoc]

lemma jm_step_eq (c : bow_document_collection) (tq : TermKey × ℚ) :
    (fun (st2 : List (DocId × ℚ) × List (DocId × Bool)) (p : DocId × bow_document) =>
        if 0 < jm_p c p.2 tq.1 then
          (dictUpdate st2.1 p.1 (fun s => s * jm_p c p.2 tq.1),
           dictUpdate st2.2 p.1 (fun _ => true))
        else st2)
      = fun st2 p =>
        (dictUpdate st2.1 p.1 (fun s => if 0 < jm_p c p.2 tq.1 then s * jm_p c p.2 tq.1 else s),
         dictUpdate st2.2 p.1 (fun u => if 0 < jm_p c p.2 tq.1 then true else u)) := by
  funext st2 p
  by_cases h : 0 < jm_p c p.2 tq.1
  · simp [h]
  · simp [h, dictUpdate_id]

lemma jm_loop (c : bow_document_collection) (hnd : (c.docs.map Prod.fst).Nodup) :
    ∀ (q : List (TermKey × ℚ)) (gs : DocId × bow_document → ℚ)
      (gu : DocId × bow_document → Bool),
      q.foldl (fun st tq =>
          c.docs.foldl (fun st2 p =>
              if 0 < jm_p c p.2 tq.1 then
                (dictUpdate st2.1 p.1 (fun s => s * jm_p c p.2 tq.1),
                 dictUpdate st2.2 p.1 (fun _ => true))
              else st2) st)
        (c.docs.map (fun p => (p.1, gs p)), c.docs.map (fun p => (p.1, gu p)))
      = (c.docs.map (fun p => (p.1, gs p *
            ((q.filter (fun tq => decide (0 < jm_p c p.2 tq.1))).map
              (fun tq => jm_p c p.2 tq.1)).prod)),
         c.docs.map (fun p => (p.1, gu p ||
            q.any (fun tq => decide (0 < jm_p c p.2 tq.1))))) := by
  intro q
  induction q with
  | nil =>
    intro gs gu
    simp
  | cons tq qt ih =>
    intro gs gu
    simp only [List.foldl_cons]
    rw [jm_step_eq c tq]
    rw [foldl_prod_split
      (fun (a : List (DocId × ℚ)) (p : DocId × bow_document) =>
        dictUpdate a p.1 (fun s => if 0 < jm_p c p.2 tq.1 then s * jm_p c p.2 tq.1 else s))
      (fun (a : List (DocId × Bool)) (p : DocId × bow_document) =>
        dictUpdate a p.1 (fun u => if 0 < jm_p c p.2 tq.1 then true else u))]
    rw [foldl_dictUpdate_map
        (fun _ doc s => if 0 < jm_p c doc tq.1 then s * jm_p c doc tq.1 else s) c.docs gs hnd,
      foldl_dictUpdate_map
        (fun _ doc u => if 0 < jm_p c doc tq.1 then true else u) c.docs gu hnd]
    rw [ih (fun p => if 0 < jm_p c p.2 tq.1 then gs p * jm_p c p.2 tq.1 else gs p)
        (fun p => if 0 < jm_p c p.2 tq.1 then true else gu p)]
    simp only [Prod.mk.injEq]
    constructor
    · congr 1
      funext p
      by_cases h : 0 < jm_p c p.2 tq.1
      · simp [h, List.filter_cons, mul_assoc]
      · simp [h, List.filter_cons]
    · congr 1
      funext p
      by_cases h : 0 < jm_p c p.2 tq.1
      · simp [h, List.any_cons]
      · simp [h, List.any_cons]

lemma adjust_map {D β : Type} (docs : List (String × D)) (F : String × D → β)
    (G : String × D → Bool) (z : β) (hnd : (docs.map Prod.fst).Nodup) :
    (docs.map (fun q => (q.1, F q))).map (fun p =>
        (p.1, if dgetD (docs.map (fun q => (q.1, G q))) p.1 false then p.2 else z))
      = docs.map (fun q => (q.1, if G q then F q else z)) := by
  induction docs with
  | nil => rfl
  | cons d t ih =>
    simp only [List.map_cons, List.nodup_cons] at hnd ⊢
    congr 1
    · simp [dgetD, dget_cons]
    · have hstep : ∀ p ∈ t.map (fun q => (q.1, F q)),
          ((p.1 : String), if dgetD ((d.1, G d) :: t.map (fun q => (q.1, G q))) p.1 false
              then p.2 else z)
            = (p.1, if dgetD (t.map (fun q => (q.1, G q))) p.1 false then p.2 else z) := by
        intro p hp
        have hne : ¬ (d.1 = p.1) := by
          rcases List.mem_map.mp hp with ⟨q, hq, rfl⟩
          exact fun hh => hnd.1 (by
            rw [hh]
            exact List.mem_map_of_mem Prod.fst hq)
        simp only [dgetD, dget_cons, if_neg hne]
      rw [List.map_congr_left hstep, ih hnd.2]

/-- Counterexample to C1: the source's `JM_LM` accumulates a *product*
of the smoothed probabilities, not a sum of their logarithms.  On the
one-document collection with terms `{cat: 2, dog: 1}` and the query
`{cat: 1}`, the smoothed probability is
`p = 0.6 * (2/3) + 0.4 * (1/3) = 8/15` and the returned score is `8/15`
itself, which differs from the `log(8/15)` the claim prescribes, since
`log(8/15) < 0 < 8/15`. -/
theorem C1_counterexample :
    JM_LM exColl1 [("cat", 1)] = Except.ok [("1", 8/15)] ∧
    Real.log ((8:ℝ)/15) < 0 ∧ ((8:ℝ)/15) ≠ Real.log ((8:ℝ)/15) := by
  have hlog : Real.log ((8:ℝ)/15) < 0 :=
    Real.log_neg (by norm_num) (by norm_num)
  refine ⟨?_, hlog, ne_of_gt (lt_trans hlog (by norm_num))⟩
  have hjm : jm_p
      { docs := [("1", { doc_id := "1", terms := [("cat", 2), ("dog", 1)], doc_len := 3 })],
        term_doc_count := [("cat", 1), ("dog", 1)],
        term_frequency := [("cat", 1), ("dog", 1)] }
      { doc_id := "1", terms := [("cat", 2), ("dog", 1)], doc_len := 3 } "cat"
      = 8/15 := by
    norm_num [jm_p, total_corpus_length, dgetD, dget]
  simp [JM_LM, JM_LM_full, exColl1, add_doc, emptyCollection, exDocA, add_term,
    bow_document.mk0, dictIncr, dictUpdate, dictSet, hjm, dgetD, dget, sortDesc, insertDesc]

/-- C1 as amended: for every non-empty collection and every query,
`JM_LM` assigns each document a score that starts at the
*multiplicative* identity 1 and, for each query term with
`p = (1-0.4)*(f_td/doc_len) + 0.4*(term_doc_frequency/total_corpus_length) > 0`
(each fraction taken as 0 when its denominator is 0), *multiplies* by
`p`; a document that receives no positive-`p` contribution has its
score set to 0 instead of the accumulated 1, and the returned mapping
is this score mapping sorted descending. -/
theorem C1_amended_jm_multiplicative (c : bow_document_collection)
    (q : List (TermKey × ℚ)) (hne : c.docs ≠ []) (hnd : (c.docs.map Prod.fst).Nodup) :
    JM_LM c q = Except.ok (sortDesc (c.docs.map (fun p =>
      (p.1, if q.any (fun tq => decide (0 < jm_p c p.2 tq.1))
            then ((q.filter (fun tq => decide (0 < jm_p c p.2 tq.1))).map
                  (fun tq => jm_p c p.2 tq.1)).prod
            else 0)))) := by
  have hempf : c.docs.isEmpty = false := by
    cases hd : c.docs
    · exact absurd hd hne
    · rfl
  simp only [JM_LM, JM_LM_full, hempf, Bool.false_eq_true, if_false]
  rw [jm_loop c hnd q (fun _ => (1:ℚ)) (fun _ => false)]
  rw [adjust_map c.docs
    (fun p => (1:ℚ) * ((q.filter (fun tq => decide (0 < jm_p c p.2 tq.1))).map
      (fun tq => jm_p c p.2 tq.1)).prod)
    (fun p => false || q.any (fun tq => decide (0 < jm_p c p.2 tq.1))) 0 hnd]
  simp only [Bool.false_or, one_mul]

/-- Witness for the amended C1 at the two-document collection and the
query `{cat: 1}`. -/
theorem C1_witness :
    exColl2.docs ≠ [] ∧ (exColl2.docs.map Prod.fst).Nodup ∧
    JM_LM exColl2 [("cat", 1)] = Except.ok (sortDesc (exColl2.docs.map (fun p =>
      (p.1, if [("cat", (1:ℚ))].any (fun tq => decide (0 < jm_p exColl2 p.2 tq.1))
            then (([("cat", (1:ℚ))].filter (fun tq => decide (0 < jm_p exColl2 p.2 tq.1))).map
                  (fun tq => jm_p exColl2 p.2 tq.1)).prod
            else 0)))) :=
  ⟨by decide, by decide,
    C1_amended_jm_multiplicative exColl2 [("cat", 1)] (by decide) (by decide)⟩

/-- C3: for every non-empty collection and query mapping, `BM25` scores
each document as the sum over query terms of
`idf * tf_component * query_component` with `k1 = 1.2`, `k2 = 500`,
`b = 0.75`, `R = 0`, `r_i = 0`, where
`idf = log10(((0+0.5)/(0-0+0.5)) / ((n_i+0.5)/(N-n_i+0.5)))` with `n_i`
the term's document frequency (0 if absent),
`K = k1*((1-b) + b*doc_len/mean_len)`,
`tf_component = (k1+1)*f_td/(K+f_td)` and
`query_component = (k2+1)*f_tq/(k2+f_tq)`; the result is min-max
normalised and returned sorted descending by score, as a permutation of
the normalised mapping in which runs of equal scores keep their
original (stable, deterministic) order.  The hypotheses say the input
reaches no raise of the source: some document has positive length (else
`K`'s division by `mean_doc_len` raises, as C10 states), no term is
counted in more documents than the collection holds (else `math.log10`
is called outside its domain), and query frequencies are nonnegative
(else `k_2 + f_tq` could vanish). -/
theorem C3_bm25_formula (c : bow_document_collection) (q : List (TermKey × ℝ))
    (hne : c.docs ≠ []) (hnd : (c.docs.map Prod.fst).Nodup)
    (hlen : 0 < total_corpus_length c)
    (hcnt : ∀ p ∈ c.term_doc_count, p.2 ≤ c.docs.length)
    (hq : ∀ tq ∈ q, 0 ≤ tq.2) :
    ∃ ns, score_normalisation (c.docs.map (fun p => (p.1,
          (q.map (fun tq =>
            bm25_contrib (fun x => Real.logb 10 x) c tq.1 tq.2 p.2)).sum)))
        = Except.ok ns ∧
      (∀ (t : TermKey) (qf : ℝ) (doc : bow_document),
        bm25_contrib (fun x => Real.logb 10 x) c t qf doc
          = Real.logb 10 ((((0:ℝ) + 0.5) / ((0:ℝ) - 0 + 0.5)) /
                ((((dgetD c.term_doc_count t 0 : ℕ) : ℝ) - 0 + 0.5) /
                  ((c.docs.length : ℝ) - ((dgetD c.term_doc_count t 0 : ℕ) : ℝ)
                    - 0 + 0 + 0.5)))
              * (((1.2 + 1) * ((dgetD doc.terms t 0 : ℕ) : ℝ)) /
                  (1.2 * ((1 - 0.75) + 0.75 * (doc.doc_len : ℝ) /
                      ((total_corpus_length c : ℝ) / (c.docs.length : ℝ))) +
                    ((dgetD doc.terms t 0 : ℕ) : ℝ)))
              * (((500 + 1) * qf) / (500 + qf))) ∧
      BM25 (fun x => Real.logb 10 x) c q = Except.ok (sortDesc ns) ∧
      (sortDesc ns).Perm ns ∧
      (sortDesc ns).Pairwise (fun a b => b.2 ≤ a.2) ∧
      ∀ v, (sortDesc ns).filter (fun p => decide (p.2 = v))
        = ns.filter (fun p => decide (p.2 = v)) := by
  obtain ⟨ns, hns⟩ := score_normalisation_ok
    (c.docs.map (fun p => (p.1,
      (q.map (fun tq => bm25_contrib (fun x => Real.logb 10 x) c tq.1 tq.2 p.2)).sum)))
    (by simp [hne])
  have hempf : c.docs.isEmpty = false := by
    cases hd : c.docs
    · exact absurd hd hne
    · rfl
  refine ⟨ns, hns, ?_, ?_, sortDesc_perm ns, sortDesc_pairwise ns,
    fun v => sortDesc_filter ns v⟩
  · intro t qf doc
    simp [bm25_contrib, bm25_idf, bm25_K, mean_doc_len]
  · simp only [BM25, BM25_full, hempf, Bool.false_eq_true, if_false]
    rw [bm25_foldlM_ok (fun x => Real.logb 10 x) c q hcnt
      (mean_doc_len_pos c hne hlen) hq (c.docs.map (fun p => (p.1, 0)))]
    rw [bm25_loop (fun x => Real.logb 10 x) c hnd q (fun _ => 0)]
    rw [show (c.docs.map (fun p => (p.1, (0:ℝ) +
          (q.map (fun tq => bm25_contrib (fun x => Real.logb 10 x) c tq.1 tq.2 p.2)).sum)))
        = (c.docs.map (fun p => (p.1,
          (q.map (fun tq => bm25_contrib (fun x => Real.logb 10 x) c tq.1 tq.2 p.2)).sum)))
      from by simp]
    dsimp only
    rw [hns]

/-- Witness for C3 at the two-document collection and the query
`{cat: 1}`. -/
theorem C3_witness :
    exColl2.docs ≠ [] ∧ (exColl2.docs.map Prod.fst).Nodup ∧
    0 < total_corpus_length exColl2 ∧
    (∀ p ∈ exColl2.term_doc_count, p.2 ≤ exColl2.docs.length) ∧
    (∀ tq ∈ [("cat", (1:ℝ))], 0 ≤ tq.2) ∧
    ∃ ns, score_normalisation (exColl2.docs.map (fun p => (p.1,
          ([("cat", (1:ℝ))].map (fun tq =>
            bm25_contrib (fun x => Real.logb 10 x) exColl2 tq.1 tq.2 p.2)).sum)))
        = Except.ok ns ∧
      BM25 (fun x => Real.logb 10 x) exColl2 [("cat", (1:ℝ))]
        = Except.ok (sortDesc ns) := by
  have hq : ∀ tq ∈ [("cat", (1:ℝ))], 0 ≤ tq.2 := by
    intro tq htq
    rcases List.mem_singleton.mp htq with rfl
    norm_num
  have h := C3_bm25_formula exColl2 [("cat", (1:ℝ))] (by decide) (by decide)
    (by decide) (by decide) hq
  obtain ⟨ns, h1, _, h3, _⟩ := h
  exact ⟨by decide, by decide, by decide, by decide, hq, ns, h1, h3⟩

/-- C2 (code bug): in the source, `document_vectors[doc_ID] = vector`
stores a reference to the single shared `vector` list, so after the
document loop every document is scored against the last document's
weight vector.  On the collection `{"1": {cat: 2, dog: 1}, "2":
{dog: 3}}` with query `{cat: 1}`, the code returns the *same* score 0
for both documents (the shared final vector is document "2"'s, which is
the zero vector since dog's idf is `log10(2/2) = 0`), whereas the
per-document computation described by the spec scores document "1" with
similarity 1 and document "2" with similarity 0. -/
theorem C2_vsm_shared_vector_bug :
    vector_space_model (fun x => Real.logb 10 x) Real.sqrt exColl2 [("cat", (1:ℝ))]
        = Except.ok [("1", 0), ("2", 0)] ∧
    vector_space_model_perdoc (fun x => Real.logb 10 x) Real.sqrt exColl2 [("cat", (1:ℝ))]
        = Except.ok [("1", 1), ("2", 0)] := by
  have hc : exColl2 =
      { docs := [("1", { doc_id := "1", terms := [("cat", 2), ("dog", 1)], doc_len := 3 }),
                 ("2", { doc_id := "2", terms := [("dog", 3)], doc_len := 3 })],
        term_doc_count := [("cat", 1), ("dog", 2)],
        term_frequency := [("cat", 1), ("dog", 2)] } := rfl
  have hdog : Real.logb 10 ((2:ℝ)/2) = 0 := by norm_num
  have hL : (0:ℝ) < Real.logb 10 2 := Real.logb_pos (by norm_num) (by norm_num)
  have h2L : (0:ℝ) < 2 * Real.logb 10 2 := by linarith
  constructor
  · rw [vector_space_model, vector_space_model_full, hc]
    simp [vsm_idf, cosine_similarity, dgetD, dget, sortDesc, insertDesc, hdog]
  · rw [vector_space_model_perdoc, hc]
    have hsim1 : cosine_similarity Real.sqrt [2 * Real.logb 10 2, (0:ℝ)] [1, 0] = 1 := by
      have hrt : Real.sqrt ((2 * Real.logb 10 2) ^ 2) = 2 * Real.logb 10 2 :=
        Real.sqrt_sq h2L.le
      simp [cosine_similarity, hrt, h2L.ne', div_self h2L.ne']
    have hsim0 : cosine_similarity Real.sqrt [(0:ℝ), 0] [1, 0] = 0 := by
      simp [cosine_similarity]
    simp [vsm_idf, dgetD, dget, sortDesc, insertDesc, hdog, hsim1, hsim0]

/-! ### Facts about the weight-5 counting loop -/

lemma foldl_const {A B : Type} (l : List B) (a : A) :
    l.foldl (fun x _ => x) a = a := by
  induction l generalizing a with
  | nil => rfl
  | cons b t ih => simp only [List.foldl_cons]; exact ih a

lemma dictUpdate_map_fst {V : Type} (m : List (String × V)) (k : String) (f : V → V) :
    (dictUpdate m k f).map Prod.fst = m.map Prod.fst := by
  unfold dictUpdate
  rw [List.map_map]
  refine List.map_congr_left (fun p _ => ?_)
  by_cases h : p.1 = k <;> simp [h]

lemma mem_keys_dictIncr (m : List (String × Nat)) (k t : String) :
    t ∈ (dictIncr m k).map Prod.fst ↔ t ∈ m.map Prod.fst ∨ t = k := by
  unfold dictIncr
  by_cases h : (dget m k).isSome
  · rw [if_pos h, dictUpdate_map_fst]
    constructor
    · exact Or.inl
    · rintro (hm | rfl)
      · exact hm
      · exact (dget_isSome_iff _ _).mp h
  · rw [if_neg h]
    simp

lemma dictIncr_values_pos (m : List (String × Nat)) (k : String)
    (h : ∀ p ∈ m, 1 ≤ p.2) : ∀ p ∈ dictIncr m k, 1 ≤ p.2 := by
  unfold dictIncr
  by_cases hk : (dget m k).isSome
  · rw [if_pos hk]
    intro p hp
    unfold dictUpdate at hp
    rcases List.mem_map.mp hp with ⟨q, hq, rfl⟩
    by_cases hqk : q.1 = k
    · rw [if_pos hqk]
      dsimp only
      omega
    · rw [if_neg hqk]
      exact h q hq
  · rw [if_neg hk]
    intro p hp
    rcases List.mem_append.mp hp with hp | hp
    · exact h p hp
    · simp only [List.mem_singleton] at hp
      rw [hp]

lemma trc_inner_id (terms : List (TermKey × Nat)) (m : List (TermKey × Nat))
    (cond : Prop) [Decidable cond] (hcond : ¬cond) :
    terms.foldl (fun m2 tp => if cond then dictIncr m2 tp.1 else m2) m = m := by
  have : (fun (m2 : List (TermKey × Nat)) (tp : TermKey × Nat) =>
      if cond then dictIncr m2 tp.1 else m2) = fun m2 _ => m2 := by
    funext m2 tp
    rw [if_neg hcond]
  rw [this, foldl_const]

lemma trc_inner_keys (terms : List (TermKey × Nat)) (cond : Prop) [Decidable cond] :
    ∀ (m : List (TermKey × Nat)) (t : TermKey),
      t ∈ ((terms.foldl (fun m2 tp => if cond then dictIncr m2 tp.1 else m2) m).map Prod.fst) →
      t ∈ m.map Prod.fst ∨ (cond ∧ t ∈ terms.map Prod.fst) := by
  induction terms with
  | nil => intro m t h; exact Or.inl h
  | cons tp rest ih =>
    intro m t h
    simp only [List.foldl_cons] at h
    rcases ih _ t h with hm | hc
    · by_cases hcond : cond
      · rw [if_pos hcond, mem_keys_dictIncr] at hm
        rcases hm with hm | rfl
        · exact Or.inl hm
        · exact Or.inr ⟨hcond, by simp⟩
      · rw [if_neg hcond] at hm
        exact Or.inl hm
    · exact Or.inr ⟨hc.1, List.mem_cons_of_mem _ hc.2⟩

lemma trc_inner_pos (terms : List (TermKey × Nat)) (cond : Prop) [Decidable cond] :
    ∀ (m : List (TermKey × Nat)), (∀ p ∈ m, 1 ≤ p.2) →
      ∀ p ∈ terms.foldl (fun m2 tp => if cond then dictIncr m2 tp.1 else m2) m, 1 ≤ p.2 := by
  induction terms with
  | nil => intro m h; exact h
  | cons tp rest ih =>
    intro m h
    simp only [List.foldl_cons]
    refine ih _ ?_
    by_cases hcond : cond
    · rw [if_pos hcond]
      exact dictIncr_values_pos m tp.1 h
    · rw [if_neg hcond]
      exact h

lemma w5_counts_split (c : bow_document_collection) (ev : List (DocId × Nat)) :
    w5_counts c ev
      = (c.docs.foldl (fun m p => p.2.terms.foldl
            (fun m2 tp => if dgetD ev p.1 0 = 1 then dictIncr m2 tp.1 else m2) m) [],
         c.docs.foldl (fun m p => p.2.terms.foldl
            (fun m2 tp => dictIncr m2 tp.1) m) []) := by
  unfold w5_counts
  rw [show (fun (acc : List (TermKey × Nat) × List (TermKey × Nat)) p =>
        p.2.terms.foldl (fun acc2 tp =>
          ((if dgetD ev p.1 0 = 1 then dictIncr acc2.1 tp.1 else acc2.1 : List (TermKey × Nat)),
           dictIncr acc2.2 tp.1)) acc)
      = (fun (acc : List (TermKey × Nat) × List (TermKey × Nat))
          (p : DocId × bow_document) =>
            (p.2.terms.foldl
              (fun m2 tp => if dgetD ev p.1 0 = 1 then dictIncr m2 tp.1 else m2) acc.1,
             p.2.terms.foldl (fun m2 tp => dictIncr m2 tp.1) acc.2)) from ?_]
  · exact foldl_prod_split
      (fun (m : List (TermKey × Nat)) (p : DocId × bow_document) =>
        p.2.terms.foldl (fun m2 tp => if dgetD ev p.1 0 = 1 then dictIncr m2 tp.1 else m2) m)
      (fun (m : List (TermKey × Nat)) (p : DocId × bow_document) =>
        p.2.terms.foldl (fun m2 tp => dictIncr m2 tp.1) m)
      c.docs [] []
  · funext acc p
    exact foldl_prod_split
      (fun m2 (tp : TermKey × Nat) => if dgetD ev p.1 0 = 1 then dictIncr m2 tp.1 else m2)
      (fun m2 (tp : TermKey × Nat) => dictIncr m2 tp.1) p.2.terms acc.1 acc.2

lemma w5_trc_keys (c : bow_document_collection) (ev : List (DocId × Nat)) :
    ∀ t, t ∈ ((w5_counts c ev).1.map Prod.fst) →
      ∃ q ∈ c.docs, dgetD ev q.1 0 = 1 ∧ t ∈ q.2.terms.map Prod.fst := by
  rw [w5_counts_split]
  suffices h : ∀ (docs : List (DocId × bow_document)) (m : List (TermKey × Nat)) (t : TermKey),
      t ∈ ((docs.foldl (fun m p => p.2.terms.foldl
          (fun m2 tp => if dgetD ev p.1 0 = 1 then dictIncr m2 tp.1 else m2) m) m).map Prod.fst) →
      t ∈ m.map Prod.fst ∨ ∃ q ∈ docs, dgetD ev q.1 0 = 1 ∧ t ∈ q.2.terms.map Prod.fst by
    intro t ht
    rcases h c.docs [] t ht with hm | hq
    · simp at hm
    · exact hq
  intro docs
  induction docs with
  | nil => intro m t h; exact Or.inl h
  | cons d rest ih =>
    intro m t h
    simp only [List.foldl_cons] at h
    rcases ih _ t h with hm | hq
    · rcases trc_inner_keys d.2.terms (dgetD ev d.1 0 = 1) m t hm with hm2 | hc
      · exact Or.inl hm2
      · exact Or.inr ⟨d, List.mem_cons_self _ _, hc.1, hc.2⟩
    · rcases hq with ⟨q, hq1, hq2, hq3⟩
      exact Or.inr ⟨q, List.mem_cons_of_mem _ hq1, hq2, hq3⟩

lemma w5_trc_pos (c : bow_document_collection) (ev : List (DocId × Nat)) :
    ∀ p ∈ (w5_counts c ev).1, 1 ≤ p.2 := by
  rw [w5_counts_split]
  suffices h : ∀ (docs : List (DocId × bow_document)) (m : List (TermKey × Nat)),
      (∀ p ∈ m, 1 ≤ p.2) →
      ∀ p ∈ docs.foldl (fun m p => p.2.terms.foldl
          (fun m2 tp => if dgetD ev p.1 0 = 1 then dictIncr m2 tp.1 else m2) m) m, 1 ≤ p.2 by
    exact h c.docs [] (by simp)
  intro docs
  induction docs with
  | nil => intro m h; exact h
  | cons d rest ih =>
    intro m h
    simp only [List.foldl_cons]
    exact ih _ (trc_inner_pos d.2.terms (dgetD ev d.1 0 = 1) m h)

lemma w5_trc_empty (c : bow_document_collection) (ev : List (DocId × Nat))
    (h : ∀ q ∈ c.docs, dgetD ev q.1 0 ≠ 1) : (w5_counts c ev).1 = [] := by
  rw [w5_counts_split]
  suffices hh : ∀ (docs : List (DocId × bow_document)), (∀ q ∈ docs, dgetD ev q.1 0 ≠ 1) →
      ∀ (m : List (TermKey × Nat)),
      docs.foldl (fun m p => p.2.terms.foldl
          (fun m2 tp => if dgetD ev p.1 0 = 1 then dictIncr m2 tp.1 else m2) m) m = m by
    exact hh c.docs h []
  intro docs hdocs
  induction docs with
  | nil => intro m; rfl
  | cons d rest ih =>
    intro m
    simp only [List.foldl_cons]
    rw [trc_inner_id d.2.terms m _ (hdocs d (List.mem_cons_self _ _))]
    exact ih (fun q hq => hdocs q (List.mem_cons_of_mem _ hq)) m

/-- C8: `w5` scores only terms with at least one relevant-document
occurrence — every scored term's `relevance_count` is at least 1, its
denominator `R - relevance_count + 0.5` is nonzero, and the term occurs
in some document labelled 1 — and, whenever the mean computation's
division is defined (some term was scored, or no entry is labelled
relevant), it returns exactly the scored terms whose score exceeds
`mean + theta`; with a relevance mapping labelling every document 0
(`R = 0`), no term is scored at all and the result is the empty
mapping, so the division for `relevance_count = 0` terms is never
reached; when `R > 0` but no term is scored, the source's
`sum(...) / len(...)` divides by zero instead. -/
theorem C8_w5_relevance_guard {α : Type} [LinearOrderedField α]
    (c : bow_document_collection) (ev : List (DocId × Nat)) (theta : α)
    (hne : c.docs ≠ []) :
    ((weight5_scores (α := α) c ev ≠ [] ∨
        (ev.filter (fun r => decide (r.2 = 1))).length = 0) →
      w5 c ev theta = Except.ok ((weight5_scores (α := α) c ev).filter
        (fun p => mean_weight5 (α := α) c ev + theta < p.2))) ∧
    (∀ p ∈ weight5_scores (α := α) c ev,
      (∃ q ∈ c.docs, dgetD ev q.1 0 = 1 ∧ p.1 ∈ q.2.terms.map Prod.fst) ∧
      ∃ rc : ℕ, (p.1, rc) ∈ (w5_counts c ev).1 ∧ 1 ≤ rc ∧
        ((ev.filter (fun r => decide (r.2 = 1))).length : α) - (rc : α) + 0.5 ≠ 0) ∧
    ((∀ p ∈ ev, p.2 ≠ 1) → w5 c ev theta = Except.ok []) ∧
    (0 < (ev.filter (fun r => decide (r.2 = 1))).length →
      weight5_scores (α := α) c ev = [] →
      w5 c ev theta = Except.error "division by zero") := by
  have hempf : c.docs.isEmpty = false := by
    cases hd : c.docs
    · exact absurd hd hne
    · rfl
  have hden : ∀ (R rc : ℕ), ((R : α) - (rc : α) + 0.5 ≠ 0) := by
    intro R rc h
    have h2 : (((2 * R - 2 * rc : ℤ)) : α) = ((-1 : ℤ) : α) := by
      push_cast
      linarith
    have h3 := Int.cast_injective h2
    omega
  refine ⟨?_, ?_, ?_, ?_⟩
  · intro hok
    have hcond : ¬ (0 < (ev.filter (fun r => decide (r.2 = 1))).length ∧
        weight5_scores (α := α) c ev = []) := by
      rcases hok with hs | hR
      · exact fun hc => hs hc.2
      · exact fun hc => Nat.lt_irrefl 0 (hR ▸ hc.1)
    simp only [w5, hempf, Bool.false_eq_true, if_false]
    rw [if_neg hcond]
  · intro p hp
    rcases List.mem_map.mp hp with ⟨q0, hq0, rfl⟩
    constructor
    · exact w5_trc_keys c ev q0.1 (List.mem_map_of_mem Prod.fst hq0)
    · exact ⟨q0.2, hq0, w5_trc_pos c ev q0 hq0, hden _ _⟩
  · intro hz
    have hz' : ∀ q ∈ c.docs, dgetD ev q.1 0 ≠ 1 := by
      intro q hq
      unfold dgetD
      cases hd : dget ev q.1 with
      | none => simp
      | some v => exact hz (q.1, v) (dget_mem ev q.1 v hd)
    have htrc := w5_trc_empty c ev hz'
    have hR0 : (ev.filter (fun r => decide (r.2 = 1))).length = 0 := by
      rw [List.filter_eq_nil_iff.mpr (fun r hr => by simp [hz r hr])]
      rfl
    simp only [w5, hempf, Bool.false_eq_true, if_false, weight5_scores, htrc,
      List.map_nil, List.filter_nil, hR0, lt_irrefl, false_and, if_false]
  · intro hRpos hempty
    simp only [w5, hempf, Bool.false_eq_true, if_false]
    rw [if_pos ⟨hRpos, hempty⟩]

/-- Witness for C8 at the two-document collection with every document
labelled 0. -/
theorem C8_witness :
    exColl2.docs ≠ [] ∧
    w5 (α := ℚ) exColl2 [("1", 0), ("2", 0)] 0 = Except.ok [] := by
  have h := C8_w5_relevance_guard (α := ℚ) exColl2 [("1", 0), ("2", 0)] 0 (by decide)
  exact ⟨by decide, h.2.2.1 (by decide)⟩

lemma dget_map_keyfun {B C : Type} (q : List (String × B)) (S : String → C) (t : String)
    (h : t ∈ q.map Prod.fst) :
    dget (q.map (fun tq => (tq.1, S tq.1))) t = some (S t) := by
  induction q with
  | nil => simp at h
  | cons tq rest ih =>
    simp only [List.map_cons, List.mem_cons] at h
    rw [List.map_cons, dget_cons]
    by_cases htq : tq.1 = t
    · rw [if_pos htq, htq]
    · rw [if_neg htq]
      rcases h with h1 | h1
      · exact absurd h1.symm htq
      · exact ih h1

lemma mem_filter_map_keyfun {B C : Type} (q : List (String × B)) (S : String → C)
    (P : C → Prop) [DecidablePred P] (t : String) :
    t ∈ (((q.map (fun tq => (tq.1, S tq.1))).filter (fun p => decide (P p.2))).map Prod.fst)
      ↔ (t ∈ q.map Prod.fst ∧ P (S t)) := by
  constructor
  · intro h
    rcases List.mem_map.mp h with ⟨p, hp, rfl⟩
    rcases List.mem_filter.mp hp with ⟨hpmem, hpP⟩
    rcases List.mem_map.mp hpmem with ⟨tq, htq, rfl⟩
    refine ⟨List.mem_map_of_mem Prod.fst htq, ?_⟩
    simpa using hpP
  · rintro ⟨hmem, hP⟩
    rcases List.mem_map.mp hmem with ⟨tq, htq, rfl⟩
    refine List.mem_map.mpr ⟨(tq.1, S tq.1), ?_, rfl⟩
    exact List.mem_filter.mpr ⟨List.mem_map_of_mem _ htq, by simpa using hP⟩

/-- C7: given a non-empty collection, a relevance mapping with at least
one label-1 and at least one label-0 document and thresholds
`theta_1 < theta_2`, `term_specificity` computes each query term's
specificity `(sum over relevant docs - sum over non-relevant docs) /
|relevant docs|`, classifies the term positive iff
`specificity ≥ theta_2` (weight `f + f*specificity`), negative iff
`specificity ≤ theta_1` (weight `f - |f*specificity|`), and general
otherwise (weight exactly `f` — in particular a term with specificity 0
under `theta_1 = -1, theta_2 = 1` is unchanged). -/
theorem C7_term_specificity_reweighting {α : Type} [LinearOrderedField α]
    (c : bow_document_collection)
    (q : List (TermKey × α)) (ev : List (DocId × Nat)) (θ1 θ2 : α)
    (hval : ∀ p ∈ ev, p.2 = 0 ∨ p.2 = 1)
    (hne : c.docs ≠ [])
    (hθ : θ1 < θ2)
    (hrel : ev.filter (fun p => decide (p.2 = 1)) ≠ [])
    (hnon : ev.filter (fun p => decide (p.2 = 0)) ≠ []) :
    term_specificity c q ev θ1 θ2 = Except.ok (q.map (fun tq =>
      if θ2 ≤ ts_specificity (α := α) c ev tq.1 then
        (tq.1, tq.2 + tq.2 * ts_specificity (α := α) c ev tq.1)
      else if ts_specificity (α := α) c ev tq.1 ≤ θ1 then
        (tq.1, tq.2 - |tq.2 * ts_specificity (α := α) c ev tq.1|)
      else (tq.1, tq.2))) := by
  have hempf : c.docs.isEmpty = false := by
    cases hd : c.docs
    · exact absurd hd hne
    · rfl
  have hall : (ev.all fun p => decide (p.2 = 0 ∨ p.2 = 1)) = true := by
    rw [List.all_eq_true]
    intro p hp
    simpa using hval p hp
  simp only [term_specificity]
  rw [if_neg (not_not_intro hall), if_neg (by simp [hempf]), if_neg (not_not_intro hθ),
    if_neg (by simp [List.length_eq_zero, hrel, hnon])]
  refine congrArg Except.ok (List.map_congr_left ?_)
  intro tq htq
  have hkey : tq.1 ∈ q.map Prod.fst := List.mem_map_of_mem Prod.fst htq
  have hs : dgetD (q.map (fun tq => (tq.1, ts_specificity (α := α) c ev tq.1))) tq.1 0
      = ts_specificity (α := α) c ev tq.1 := by
    unfold dgetD
    rw [dget_map_keyfun q (fun t => ts_specificity (α := α) c ev t) tq.1 hkey]
    rfl
  have hposm := mem_filter_map_keyfun q (fun t => ts_specificity (α := α) c ev t)
      (fun s => θ2 ≤ s) tq.1
  have hgenm := mem_filter_map_keyfun q (fun t => ts_specificity (α := α) c ev t)
      (fun s => θ1 < s ∧ s < θ2) tq.1
  by_cases hpos : θ2 ≤ ts_specificity (α := α) c ev tq.1
  · rw [if_pos (hposm.mpr ⟨hkey, hpos⟩), if_pos hpos, hs]
  · rw [if_neg (fun hm => hpos ((hposm.mp hm).2)), if_neg hpos]
    by_cases hgen : θ1 < ts_specificity (α := α) c ev tq.1 ∧
        ts_specificity (α := α) c ev tq.1 < θ2
    · rw [if_pos (hgenm.mpr ⟨hkey, hgen⟩), if_neg (by exact not_le_of_lt hgen.1)]
    · rw [if_neg (fun hm => hgen (hgenm.mp hm).2), hs,
        if_pos ?hle]
      case hle =>
        rcases not_and_or.mp hgen with h1 | h1
        · exact le_of_not_lt h1
        · exact absurd (lt_of_not_le hpos) h1

/-- Witness for C7 at the two-document collection, query
`{cat: 1, dog: 2}`, labels `{"1": 1, "2": 0}`, thresholds `-1 < 1`. -/
theorem C7_witness :
    (∀ p ∈ [(("1" : DocId), 1), ("2", 0)], p.2 = 0 ∨ p.2 = 1) ∧
    exColl2.docs ≠ [] ∧ ((-1 : ℚ) < 1) ∧
    term_specificity exColl2 [("cat", (1:ℚ)), ("dog", 2)] [("1", 1), ("2", 0)] (-1) 1
      = Except.ok ([("cat", (1:ℚ)), ("dog", 2)].map (fun tq =>
        if (1:ℚ) ≤ ts_specificity (α := ℚ) exColl2 [("1", 1), ("2", 0)] tq.1 then
          (tq.1, tq.2 + tq.2 * ts_specificity (α := ℚ) exColl2 [("1", 1), ("2", 0)] tq.1)
        else if ts_specificity (α := ℚ) exColl2 [("1", 1), ("2", 0)] tq.1 ≤ (-1:ℚ) then
          (tq.1, tq.2 - |tq.2 * ts_specificity (α := ℚ) exColl2 [("1", 1), ("2", 0)] tq.1|)
        else (tq.1, tq.2))) :=
  ⟨by decide, by decide, by decide,
    C7_term_specificity_reweighting exColl2 [("cat", (1:ℚ)), ("dog", 2)]
      [("1", 1), ("2", 0)] (-1) 1 (by decide) (by decide) (by decide)
      (by decide) (by decide)⟩
